import Mathlib

/-!
Verification development for the task-master MCP server (task collection
engine).  The definitions below are shallow embeddings of the JavaScript
source files under `src/`: task records become Lean structures, JS numbers
become `Int`/`ℚ`, JS strings become `String` (statuses) or `List Char`
(identifier strings that the code splits and parses), JS `Set`s become
`Finset`s, and in-place mutation becomes positional functional update.
Each definition's doc comment names the source function it embeds.
-/

namespace TaskMaster

/-- Dependency identifier as stored in a task's `dependencies` array: the
JS code stores either a plain numeric task id or a composite
`"parentId.subtaskId"` string; the composite string is represented by its
two numeric components. -/
inductive Dep where
  | plain (i : Int)
  | sub (p : Int) (s : Int)
deriving DecidableEq, Repr

/-- Subtask record (the fields the verified operations read or write). A
missing `dependencies` array in JS behaves exactly like an empty one in
every verified operation, so it is modelled as `[]`. -/
structure Subtask where
  id : Int
  status : String
  dependencies : List Dep := []
  updatedAt : String := ""
deriving DecidableEq, Repr

/-- Task record (the fields the verified operations read or write).
`priority` is `none` when the JS field is absent; missing `dependencies`,
`subtasks` and `relevantTasks` arrays behave like empty ones in every
verified operation and are modelled as `[]`. -/
structure Task where
  id : Int
  status : String
  priority : Option String := none
  dependencies : List Dep := []
  subtasks : List Subtask := []
  relevantTasks : List Int := []
  updatedAt : String := ""
deriving DecidableEq, Repr

/-! JS string primitives.

Identifier strings are modelled as `List Char`.  The helpers below embed
`String.prototype.split`, `String.prototype.trim`, `String.prototype.includes`
and `parseInt(s, 10)` as used by the source. -/

/-- Whitespace recognised by JS `trim` and `parseInt` (the code only ever
meets ASCII whitespace in identifier lists). -/
def isJsSpace (c : Char) : Bool :=
  c == ' ' || c == '\t' || c == '\n' || c == '\r'

/-- Embeds `s.trim()`. -/
def jsTrim (s : List Char) : List Char :=
  ((s.dropWhile isJsSpace).reverse.dropWhile isJsSpace).reverse

/-- Embeds `s.split(sep)` for a single-character separator: always returns
at least one (possibly empty) component. -/
def splitOnChar (sep : Char) : List Char → List (List Char)
  | [] => [[]]
  | c :: rest =>
    match splitOnChar sep rest with
    | [] => [[c]]
    | h :: t => if c == sep then [] :: h :: t else (c :: h) :: t

/-- Maximal leading digit run of `s` interpreted in base 10; `none` when
`s` does not start with a digit (JS `NaN`). -/
def parseNatDigits (s : List Char) : Option Nat :=
  let ds := s.takeWhile Char.isDigit
  if ds.isEmpty then none
  else some (ds.foldl (fun a c => 10 * a + (c.toNat - 48)) 0)

/-- Embeds `parseInt(s, 10)`: skip leading whitespace, optional sign,
then the maximal digit prefix; `none` models `NaN`. -/
def parseIntJs (s : List Char) : Option Int :=
  match s.dropWhile isJsSpace with
  | '-' :: r => (parseNatDigits r).map (fun n => -(n : Int))
  | '+' :: r => (parseNatDigits r).map (fun n => (n : Int))
  | r => (parseNatDigits r).map (fun n => (n : Int))

/-- Result of `findTaskById` (utils.js): either a top-level task, or a
subtask together with its parent. -/
inductive FindResult where
  | taskR (t : Task)
  | subR (parent : Task) (st : Subtask)
deriving DecidableEq, Repr

/-- Embeds `findTaskById` (src/tools/utils.js lines 87-110): a dotted id is
split on `.`, only the first two components are consulted, the parent and
subtask are looked up by parsed integer id; an undotted id is parsed as an
integer task id.  A failed `parseInt` gives JS `NaN`, which matches no id,
hence `none`. -/
def findTaskById (tasks : List Task) (taskId : List Char) : Option FindResult :=
  if taskId.contains '.' then
    let parts := splitOnChar '.' taskId
    match parseIntJs (parts.getD 0 []) with
    | none => none
    | some pid =>
      match tasks.find? (fun t => t.id == pid) with
      | none => none
      | some parentTask =>
        match parseIntJs (parts.getD 1 []) with
        | none => none
        | some sid =>
          match parentTask.subtasks.find? (fun st => st.id == sid) with
          | none => none
          | some st => some (.subR parentTask st)
  else
    match parseIntJs taskId with
    | none => none
    | some n => (tasks.find? (fun t => t.id == n)).map .taskR

/-- Embeds `isValidTaskStatus` (utils.js). -/
def isValidTaskStatus (status : String) : Bool :=
  ["pending", "in-progress", "done", "completed", "blocked", "deferred", "cancelled"].contains status

/-- Status test `status === 'done' || status === 'completed'` used
throughout the source. -/
def isCompletedStatus (s : String) : Bool :=
  s == "done" || s == "completed"

/-! Dependency satisfaction (status-report.js). -/

/-- Embeds `areAllDependenciesCompleted` (src/tools/status-report.js lines
124-141): a composite dependency resolves through the parent's subtask
list, a plain one through the task list; any failed lookup yields `false`. -/
def areAllDependenciesCompleted (dependencies : List Dep) (allTasks : List Task) : Bool :=
  dependencies.all fun depId =>
    match depId with
    | .sub parentId subtaskId =>
      match allTasks.find? (fun t => t.id == parentId) with
      | none => false
      | some parentTask =>
        match parentTask.subtasks.find? (fun st => st.id == subtaskId) with
        | none => false
        | some subtask => isCompletedStatus subtask.status
    | .plain i =>
      match allTasks.find? (fun t => t.id == i) with
      | none => false
      | some depTask => isCompletedStatus depTask.status

/-- Resolution of one dependency identifier to the status of the referenced
task or subtask, exactly as `areAllDependenciesCompleted` looks it up;
`none` when the reference does not resolve. -/
def depResolvedStatus (allTasks : List Task) (dep : Dep) : Option String :=
  match dep with
  | .sub parentId subtaskId =>
    match allTasks.find? (fun t => t.id == parentId) with
    | none => none
    | some parentTask => (parentTask.subtasks.find? (fun st => st.id == subtaskId)).map Subtask.status
  | .plain i => (allTasks.find? (fun t => t.id == i)).map Task.status

/-! Next-task selection (next-task.js). -/

/-- Embeds the `completedTaskIds` set of `findNextTask` (next-task.js lines
19-23): ids of top-level tasks whose status is done or completed (the JS
`Set` is used only through `has`, so a list with membership is faithful). -/
def completedTaskIds (tasks : List Task) : List Int :=
  (tasks.filter (fun t => isCompletedStatus t.status)).map (fun t => t.id)

/-- Embeds the eligibility predicate of `findNextTask` (next-task.js lines
29-46).  `completedTaskIds.has(depId)` compares a dependency value against
numeric task ids, so a composite subtask dependency is never satisfied. -/
def isEligibleTask (tasks : List Task) (task : Task) : Bool :=
  if isCompletedStatus task.status then false
  else if task.status == "blocked" || task.status == "deferred" || task.status == "cancelled" then false
  else if task.dependencies.length > 0 then
    task.dependencies.all fun depId =>
      match depId with
      | .plain i => (completedTaskIds tasks).contains i
      | .sub _ _ => false
  else true

/-- The `eligibleTasks` array of `findNextTask`. -/
def eligibleTasks (tasks : List Task) : List Task :=
  tasks.filter (isEligibleTask tasks)

/-- Embeds the `dependentCounts` map of `findNextTask` (next-task.js lines
59-78) read back at a numeric task id: the number of occurrences of that id
across all task-level and subtask-level dependency lists (string-keyed
entries of the JS map are never read back by a numeric id). -/
def dependentCount (tasks : List Task) (i : Int) : Nat :=
  tasks.foldl
    (fun acc t =>
      acc + t.dependencies.count (Dep.plain i)
          + t.subtasks.foldl (fun a st => a + st.dependencies.count (Dep.plain i)) 0)
    0

/-- Property names every plain object literal inherits from
`Object.prototype`: indexing `{ high: 3, medium: 2, low: 1 }` with one of
these yields a truthy non-number (a built-in function, or the prototype
object itself for `__proto__`) instead of `undefined`. -/
def objectPrototypeMembers : List String :=
  ["constructor", "hasOwnProperty", "isPrototypeOf", "propertyIsEnumerable",
   "toLocaleString", "toString", "valueOf", "__proto__",
   "__defineGetter__", "__defineSetter__", "__lookupGetter__", "__lookupSetter__"]

/-- Value of the JS expression `priorityOrder[p] || 2`: either a number
(an own property of the literal, or the `|| 2` default when the lookup is
`undefined`), or a truthy non-number inherited from `Object.prototype`,
identified by the property name (distinct names are distinct objects under
strict equality, and any arithmetic on such a value is `NaN`). -/
inductive JsPriority where
  | num (n : Int)
  | exotic (name : String)
deriving DecidableEq, Repr

/-- Numeric reading of a priority value; only ever used under a hypothesis
that the value is `num`. -/
def JsPriority.toNum : JsPriority → Int
  | .num n => n
  | .exotic _ => 2

/-- Embeds `priorityOrder[a.priority] || 2` (next-task.js lines 87-89).
The object literal inherits `Object.prototype`, so a priority naming one
of its members looks up a truthy non-number and the `|| 2` default is NOT
taken; every other unrecognized or absent priority defaults to 2. -/
def priorityValue (p : Option String) : JsPriority :=
  match p with
  | some s =>
    if s == "high" then .num 3 else if s == "medium" then .num 2
    else if s == "low" then .num 1
    else if objectPrototypeMembers.contains s then .exotic s
    else .num 2
  | none => .num 2

/-- Embeds the sort comparator of `findNextTask` (next-task.js lines
81-99).  When the two priority values differ and at least one is a truthy
non-number inherited from `Object.prototype`, the source computes
`bPriority - aPriority = NaN`; `Array.prototype.sort` treats a `NaN`
comparator result exactly like `0` (neither `< 0` nor `> 0`), so the
model returns `0` for that pair and the later tiebreakers are skipped. -/
def taskCmp (tasks : List Task) (a b : Task) : Int :=
  if a.status == "in-progress" && !(b.status == "in-progress") then -1
  else if b.status == "in-progress" && !(a.status == "in-progress") then 1
  else
    let aP := priorityValue a.priority
    let bP := priorityValue b.priority
    if aP ≠ bP then
      match aP, bP with
      | .num an, .num bn => bn - an
      | _, _ => 0
    else
      let aD : Int := (dependentCount tasks a.id : Int)
      let bD : Int := (dependentCount tasks b.id : Int)
      if aD ≠ bD then bD - aD
      else a.id - b.id

/-- True when `priorityOrder[priority] || 2` evaluates to a number: the
priority is high, medium or low, or is absent or unrecognized without
naming an `Object.prototype` member. -/
def numericPriority (t : Task) : Bool :=
  match priorityValue t.priority with
  | .num _ => true
  | .exotic _ => false

/-- First element of the eligible list after the comparator sort.  JS
`Array.prototype.sort` is stable, so `eligibleTasks[0]` is the earliest
element that is minimal for the comparator; the fold below keeps the
current element unless a strictly smaller one appears, which computes
exactly that earliest minimal element. -/
def selectFirstMin (tasks : List Task) : List Task → Option Task
  | [] => none
  | t :: rest => some (rest.foldl (fun best c => if taskCmp tasks c best < 0 then c else best) t)

/-- Embeds `findNextTask` (next-task.js lines 17-102). -/
def findNextTask (tasks : List Task) : Option Task :=
  selectFirstMin tasks (eligibleTasks tasks)

/-! String similarity (fuzzy matching utilities). -/

/-- Embeds `levenshteinDistance` (fuzzy matching utilities, lines 290-314).
The source tabulates the matrix `m[j][i]` = distance between the first `i`
characters of `str1` and the first `j` characters of `str2` with unit-cost
deletion, insertion and substitution; this is the recurrence that matrix
tabulates, defined by recursion on the strings. -/
def levenshteinDistance : List Char → List Char → Nat
  | [], str2 => str2.length
  | str1, [] => str1.length
  | c1 :: str1, c2 :: str2 =>
      min (min (levenshteinDistance (c1 :: str1) str2 + 1)
               (levenshteinDistance str1 (c2 :: str2) + 1))
          (levenshteinDistance str1 str2 + (if c1 = c2 then 0 else 1))

/-- Embeds `calculateSimilarity` (fuzzy matching utilities, lines 276-282):
`1 - distance / max(len1, len2)`, with two empty strings fully similar.
JS number arithmetic is modelled by `ℚ`; all values produced here are
exact in binary floating point as well. -/
def calculateSimilarity (str1 str2 : List Char) : ℚ :=
  let maxLen : ℕ := max str1.length str2.length
  if maxLen = 0 then 1
  else 1 - (levenshteinDistance str1 str2 : ℚ) / (maxLen : ℚ)

/-! Relevance chain (update-tasks tool). -/

/-- Membership test `visited.has(depId)` for a stored dependency value:
the visited set only ever holds numeric task ids, so a composite string
dependency is never a member. -/
def depVisited (visited : Finset Int) (dep : Dep) : Bool :=
  match dep with
  | .plain i => decide (i ∈ visited)
  | .sub _ _ => false

/-- Embeds `buildRelevantTasksChain` (update-tasks tool, lines 391-431).
The returned JS `Set` may hold numeric ids and composite dependency
strings, modelled as a `Finset Dep` with numeric ids injected via
`Dep.plain`.  The depth guard returns the empty set at depth `0`;
otherwise the seed id, its unvisited `relevantTasks` (with their recursive
chains at depth one less, each on a copy of the visited set), its
unvisited dependencies, and the ids of unvisited tasks depending on the
seed are collected. -/
def buildRelevantTasksChain (allTasks : List Task) (startTaskId : Int) (visited : Finset Int) :
    Nat → Finset Dep
  | 0 => ∅
  | Nat.succ d =>
    if startTaskId ∈ visited then ∅
    else
      let visited1 := insert startTaskId visited
      let base : Finset Dep := {Dep.plain startTaskId}
      match allTasks.find? (fun t => t.id == startTaskId) with
      | none => base
      | some startTask =>
        let r1 := startTask.relevantTasks.foldl
          (fun acc i =>
            if i ∈ visited1 then acc
            else insert (Dep.plain i) acc ∪ buildRelevantTasksChain allTasks i visited1 d)
          base
        let r2 := startTask.dependencies.foldl
          (fun acc dep => if depVisited visited1 dep then acc else insert dep acc) r1
        allTasks.foldl
          (fun acc t =>
            if Dep.plain startTaskId ∈ t.dependencies ∧ t.id ∉ visited1 then
              insert (Dep.plain t.id) acc
            else acc)
          r2

/-! Batch planning (init.js / complexity-report.js).

Both planners measure a task set only through `JSON.stringify(tasks).length`
and `tasks.length`; they are embedded as functions of that serialized
length (`ℚ`, modelling the JS number it is immediately used as) and the
task count. -/

/-- Result record of `determineBatchStrategy`. -/
structure BatchStrategy where
  useBatches : Bool
  batchSize : ℤ
  totalBatches : ℤ
  estimatedTokens : ℚ
deriving DecidableEq, Repr

/-- Embeds `determineBatchStrategy` (src/tools/init.js lines 638-670),
parametrised by `serializedLen = JSON.stringify(tasksToUpdate).length` and
`totalTasks = tasksToUpdate.length`.  Note that `totalBatches` divides by
the local `batchSize` before the `Math.min(batchSize, 5)` clamp that is
returned as the `batchSize` field. -/
def determineBatchStrategy (serializedLen : ℚ) (totalTasks : ℕ) : BatchStrategy :=
  if totalTasks = 0 then ⟨false, 0, 0, 0⟩
  else
    let avgTaskSize : ℚ := serializedLen / (totalTasks : ℚ)
    let estimatedTokens : ℚ := serializedLen / 4 * (3 / 2)
    if 15000 < estimatedTokens then
      let rawBatchSize : ℤ := max 1 ⌊(10000 : ℚ) / (avgTaskSize / 4)⌋
      ⟨true, min rawBatchSize 5, ⌈(totalTasks : ℚ) / (rawBatchSize : ℚ)⌉, estimatedTokens⟩
    else
      ⟨false, (totalTasks : ℤ), 1, estimatedTokens⟩

/-- Result record of `calculateBatchConfig`. -/
structure ComplexityBatchConfig where
  useBatches : Bool
  batchSize : ℤ
  totalBatches : ℤ
  estimatedTokens : ℚ
  tokensPerBatch : ℤ
deriving DecidableEq, Repr

/-- JS `Math.round` on the non-negative values produced here. -/
def jsRound (x : ℚ) : ℤ := ⌊x + 1 / 2⌋

/-- Embeds `calculateBatchConfig` (analyze-task-complexity tool, lines
35-62), parametrised like `determineBatchStrategy`; `requestedBatchSize`
models a truthy `requestedBatchSize` argument when `some`.  Here the
clamped batch size is reassigned before `totalBatches` is computed, and
`useBatches` is `totalBatches > 1`. -/
def calculateBatchConfig (serializedLen : ℚ) (totalTasks : ℕ)
    (requestedBatchSize : Option ℤ) : ComplexityBatchConfig :=
  let avgTaskSize : ℚ := serializedLen / (totalTasks : ℚ)
  let estimatedTokens : ℚ := serializedLen / 4 * 2
  let batchSize : ℤ :=
    match requestedBatchSize with
    | some r => min r (totalTasks : ℤ)
    | none =>
      if 20000 < estimatedTokens then
        min (max 1 ⌊(15000 : ℚ) / (avgTaskSize / 4)⌋) 10
      else (totalTasks : ℤ)
  let totalBatches : ℤ := ⌈(totalTasks : ℚ) / (batchSize : ℚ)⌉
  ⟨1 < totalBatches, batchSize, totalBatches, estimatedTokens,
   jsRound (estimatedTokens / (totalBatches : ℚ))⟩

/-! Mutation operations.

The JS tools locate an object with `findTaskById` / `Array.prototype.find`
and then mutate it through the returned reference; `Array.prototype.find`
returns the first match, so the functional translation updates the first
matching element in place.  Each tool re-reads the collection from disk on
every call and reports `writeJSON` failure as an error response, so a call
is modelled as a function from the persisted collection (plus a `writeOk`
oracle for the `writeJSON` outcome and a `now` value for
`new Date().toISOString()`) to a response together with the collection that
is persisted after the call. -/

/-- Updates the first element satisfying `p` using the partial update `f`;
`none` when no element matches or `f` fails on the first match (mirroring
mutation through the first `find` result, with no fallthrough to later
matches). -/
def updateFirstM {α : Type} (p : α → Bool) (f : α → Option α) : List α → Option (List α)
  | [] => none
  | x :: xs =>
    if p x then (f x).map (fun y => y :: xs)
    else (updateFirstM p f xs).map (fun l => x :: l)

/-- Embeds one iteration of the set-task-status loop (set-task-status.js
lines 56-80): resolve `taskId` exactly as `findTaskById` does and set the
resolved task's or subtask's `status`; `none` when the id does not
resolve. -/
def applyStatus (tasks : List Task) (taskId : List Char) (newStatus : String) :
    Option (List Task) :=
  if taskId.contains '.' then
    let parts := splitOnChar '.' taskId
    match parseIntJs (parts.getD 0 []) with
    | none => none
    | some pid =>
      updateFirstM (fun t => t.id == pid)
        (fun t =>
          match parseIntJs (parts.getD 1 []) with
          | none => none
          | some sid =>
            (updateFirstM (fun s => s.id == sid)
                (fun s => some { s with status := newStatus }) t.subtasks).map
              (fun sts => { t with subtasks := sts }))
        tasks
  else
    match parseIntJs taskId with
    | none => none
    | some n =>
      updateFirstM (fun t => t.id == n) (fun t => some { t with status := newStatus }) tasks

/-- The per-id `for` loop of the set-task-status tool: threads the
collection through `applyStatus` and collects updated ids and error ids in
order. -/
def setTaskStatusLoop (tasks : List Task) (ids : List (List Char)) (newStatus : String) :
    List Task × List (List Char) × List (List Char) :=
  match ids with
  | [] => (tasks, [], [])
  | taskId :: rest =>
    match applyStatus tasks taskId newStatus with
    | some ts =>
      let r := setTaskStatusLoop ts rest newStatus
      (r.1, taskId :: r.2.1, r.2.2)
    | none =>
      let r := setTaskStatusLoop tasks rest newStatus
      (r.1, r.2.1, taskId :: r.2.2)

/-- Response of the set-task-status tool: error flag, ids updated, ids that
produced a `Task not found` entry. -/
structure SetStatusResult where
  isError : Bool
  updatedIds : List (List Char)
  errorIds : List (List Char)
deriving DecidableEq, Repr

/-- Embeds the `execute` body of the set-task-status tool
(set-task-status.js lines 32-102) from the point where the collection has
been read: validate the status, split the comma-separated id list, trim
each id, update each resolvable id, and write the collection back only
when at least one task was updated; a failed write produces an error
response and leaves the persisted collection unchanged. -/
def runSetTaskStatus (tasks : List Task) (taskIdsRaw : List Char) (newStatus : String)
    (writeOk : Bool) : SetStatusResult × List Task :=
  if !isValidTaskStatus newStatus then (⟨true, [], []⟩, tasks)
  else
    let idList := (splitOnChar ',' taskIdsRaw).map jsTrim
    let r := setTaskStatusLoop tasks idList newStatus
    if 0 < r.2.1.length then
      if writeOk then (⟨false, r.2.1, r.2.2⟩, r.1)
      else (⟨true, r.2.1, r.2.2⟩, tasks)
    else (⟨false, r.2.1, r.2.2⟩, tasks)

/-- Response of the clear-subtasks tool: error flag and ids of the tasks
whose subtasks were cleared. -/
structure ClearResult where
  isError : Bool
  clearedIds : List Int
deriving DecidableEq, Repr

/-- Target predicate of the clear-subtasks tool (clear-subtasks.js lines
46-59): with `all`, every task that has subtasks; otherwise tasks whose id
occurs among the parsed comma-separated ids (a `parseInt` failure gives
`NaN`, which matches no id) and that have subtasks. -/
def clearTargetPred (parsedIds : List (Option Int)) (all : Bool) (t : Task) : Bool :=
  if all then !t.subtasks.isEmpty
  else parsedIds.contains (some t.id) && !t.subtasks.isEmpty

/-- Embeds the `execute` body of the clear-subtasks tool (clear-subtasks.js
lines 33-111) from the point where the collection has been read: determine
the target tasks, clear their `subtasks` and stamp their `updatedAt`, and
persist; a failed write produces an error response and leaves the
persisted collection unchanged, and with no targets nothing is written. -/
def runClearSubtasks (tasks : List Task) (taskIds : Option (List Char)) (all : Bool)
    (now : String) (writeOk : Bool) : ClearResult × List Task :=
  let pred : Option (Task → Bool) :=
    if all then some (clearTargetPred [] true)
    else
      match taskIds with
      | some raw =>
        some (clearTargetPred ((splitOnChar ',' raw).map (fun s => parseIntJs (jsTrim s))) false)
      | none => none
  match pred with
  | none => (⟨true, []⟩, tasks)
  | some p =>
    let targets := tasks.filter p
    if targets.isEmpty then (⟨false, []⟩, tasks)
    else
      let newTasks := tasks.map (fun t => if p t then { t with subtasks := [], updatedAt := now } else t)
      if writeOk then (⟨false, targets.map (fun t => t.id)⟩, newTasks)
      else (⟨true, targets.map (fun t => t.id)⟩, tasks)

/-- Response of the add-dependency tool. -/
inductive AddDepResult where
  | ok
  | errTaskNotFound
  | errDepNotFound
  | errSelf
  | errDuplicate
  | errWrite
deriving DecidableEq, Repr

/-- Dependency list of the object a `findTaskById` result points at. -/
def findResultDeps : FindResult → List Dep
  | .taskR t => t.dependencies
  | .subR _ s => s.dependencies

/-- Embeds the `dependencyId` conversion of the add-dependency tool
(add-dependency.js lines 70-77): a dotted id is kept as the composite
value, an undotted one becomes the parsed number.  Used only after
`findTaskById dependsOn` succeeded, so the parses succeed and `getD 0`
is never taken. -/
def mkDependencyId (dependsOn : List Char) : Dep :=
  if dependsOn.contains '.' then
    let parts := splitOnChar '.' dependsOn
    Dep.sub ((parseIntJs (parts.getD 0 [])).getD 0) ((parseIntJs (parts.getD 1 [])).getD 0)
  else Dep.plain ((parseIntJs dependsOn).getD 0)

/-- In-place mutation step of the add-dependency tool (add-dependency.js
lines 88-96): push `depId` onto the resolved object's dependency list and
stamp `updatedAt` on the task, or on the parent when the target is a
subtask. -/
def addDependencyMutate (tasks : List Task) (taskId : List Char) (depId : Dep) (now : String) :
    Option (List Task) :=
  if taskId.contains '.' then
    let parts := splitOnChar '.' taskId
    match parseIntJs (parts.getD 0 []) with
    | none => none
    | some pid =>
      updateFirstM (fun t => t.id == pid)
        (fun t =>
          match parseIntJs (parts.getD 1 []) with
          | none => none
          | some sid =>
            (updateFirstM (fun s => s.id == sid)
                (fun s => some { s with dependencies := s.dependencies ++ [depId] }) t.subtasks).map
              (fun sts => { t with subtasks := sts, updatedAt := now }))
        tasks
  else
    match parseIntJs taskId with
    | none => none
    | some n =>
      updateFirstM (fun t => t.id == n)
        (fun t => some { t with dependencies := t.dependencies ++ [depId], updatedAt := now }) tasks

/-- Embeds the `execute` body of the add-dependency tool (add-dependency.js
lines 31-127) from the point where the collection has been read: resolve
both ids, reject a self-dependency (`taskId === dependsOn`, compared as the
argument strings) before any mutation, reject duplicates, otherwise push
the dependency, stamp `updatedAt`, and persist; a failed write produces an
error response and leaves the persisted collection unchanged. -/
def runAddDependency (tasks : List Task) (taskId dependsOn : List Char) (now : String)
    (writeOk : Bool) : AddDepResult × List Task :=
  match findTaskById tasks taskId with
  | none => (.errTaskNotFound, tasks)
  | some targetResult =>
    match findTaskById tasks dependsOn with
    | none => (.errDepNotFound, tasks)
    | some _ =>
      if taskId == dependsOn then (.errSelf, tasks)
      else
        let depId := mkDependencyId dependsOn
        if (findResultDeps targetResult).contains depId then (.errDuplicate, tasks)
        else
          match addDependencyMutate tasks taskId depId now with
          | none => (.errTaskNotFound, tasks)
          | some newTasks =>
            if writeOk then (.ok, newTasks) else (.errWrite, tasks)

/-! Derived observations used by the theorems. -/

/-- Status of the task or subtask an identifier resolves to. -/
def resolvedStatusAt (tasks : List Task) (taskId : List Char) : Option String :=
  match findTaskById tasks taskId with
  | none => none
  | some (.taskR t) => some t.status
  | some (.subR _ st) => some st.status

/-- Everything of a subtask except its status. -/
def subFrame (s : Subtask) : Int × List Dep × String :=
  (s.id, s.dependencies, s.updatedAt)

/-- Everything of a task except its own status and its subtasks' statuses;
identifier resolution and `updatedAt` values are functions of this frame. -/
def frameOf (t : Task) : Int × Option String × List Dep × List Int × String × List (Int × List Dep × String) :=
  (t.id, t.priority, t.dependencies, t.relevantTasks, t.updatedAt, t.subtasks.map subFrame)

/-- Rank position of the in-progress flag in the comparator (earlier is
preferred). -/
def inProgressRank (t : Task) : ℕ :=
  if t.status == "in-progress" then 0 else 1

/-- The sort key realised by the comparator `taskCmp` on tasks whose
priority value is numeric: in-progress first, then higher priority value,
then higher dependent count, then lower id, lexicographically. -/
def rankKey (tasks : List Task) (t : Task) : Lex (ℕ × Lex (ℤ × Lex (ℤ × ℤ))) :=
  toLex (inProgressRank t,
    toLex (-((priorityValue t.priority).toNum),
      toLex (-((dependentCount tasks t.id : Int)), t.id)))

/-- Transcribes the priority scale as the CLAIM words it (for comparison
with the source's `priorityValue`): high 3, medium 2, low 1, and medium 2
as the default for every unset or unrecognized priority, with no
exception. -/
def claimPriorityValue (p : Option String) : Int :=
  match p with
  | some s => if s == "high" then 3 else if s == "medium" then 2 else if s == "low" then 1 else 2
  | none => 2

/-! Concrete fixtures for witnesses and counterexamples. -/

/-- Collection with a done subtask `1.1` and a pending task `2` depending
on it. -/
def c1Tasks : List Task :=
  [{ id := 1, status := "pending", subtasks := [{ id := 1, status := "done" }] },
   { id := 2, status := "pending", dependencies := [.sub 1 1] }]

/-- Collection for exercising the relevance chain: task 1 relates to 2,
depends on 3, and is depended on by 4. -/
def c2Tasks : List Task :=
  [{ id := 1, status := "pending", relevantTasks := [2], dependencies := [.plain 3] },
   { id := 2, status := "pending" },
   { id := 3, status := "pending" },
   { id := 4, status := "pending", dependencies := [.plain 1] }]

/-- The three-task scenario of the next-task selection claim. -/
def c6TaskA : Task := { id := 1, status := "pending", priority := some "low" }

/-- Task `B` of the next-task scenario. -/
def c6TaskB : Task := { id := 2, status := "pending", priority := some "high" }

/-- Task `C` of the next-task scenario, depending on `B`. -/
def c6TaskC : Task := { id := 3, status := "pending", priority := some "high", dependencies := [.plain 2] }

/-- Collection of the next-task scenario. -/
def c6Tasks : List Task := [c6TaskA, c6TaskB, c6TaskC]

/-- Pending task whose priority names an `Object.prototype` member. -/
def c6xTask1 : Task := { id := 1, status := "pending", priority := some "toString" }

/-- Pending high-priority competitor of `c6xTask1`. -/
def c6xTask2 : Task := { id := 2, status := "pending", priority := some "high" }

/-- Collection refuting the medium-default reading of the priority
lookup. -/
def c6xTasks : List Task := [c6xTask1, c6xTask2]

/-- One pending task with a recorded `updatedAt` of `"t0"`. -/
def c4Tasks : List Task :=
  [{ id := 1, status := "pending", updatedAt := "t0" }]

/-- Two tasks, the second with one subtask, all stamped `"t0"`. -/
def mixTasks : List Task :=
  [{ id := 1, status := "pending", updatedAt := "t0" },
   { id := 2, status := "pending", updatedAt := "t0",
     subtasks := [{ id := 1, status := "pending", updatedAt := "t0" }] }]

/-! Helper lemmas shared by the claim theorems. -/

theorem levenshteinDistance_nil_right (s : List Char) : levenshteinDistance s [] = s.length := by
  cases s <;> simp [levenshteinDistance]

theorem levenshteinDistance_self (s : List Char) : levenshteinDistance s s = 0 := by
  induction s with
  | nil => simp [levenshteinDistance]
  | cons c s ih => simp [levenshteinDistance, ih]

theorem levenshteinDistance_comm (a b : List Char) :
    levenshteinDistance a b = levenshteinDistance b a := by
  induction a generalizing b with
  | nil => simp [levenshteinDistance, levenshteinDistance_nil_right]
  | cons x xs ih1 =>
    induction b with
    | nil => simp [levenshteinDistance, levenshteinDistance_nil_right]
    | cons y ys ih2 =>
      have hc : (if x = y then 0 else 1) = (if y = x then 0 else 1) := by
        by_cases h : x = y <;> simp [h, Ne.symm, eq_comm]
      simp only [levenshteinDistance]
      rw [ih1 (y :: ys), ih2, ih1 ys, hc]
      omega

theorem foldl_subset_mono {β : Type} {f : Finset Dep → β → Finset Dep}
    (hmono : ∀ acc x, acc ⊆ f acc x) (l : List β) (init : Finset Dep) :
    init ⊆ l.foldl f init := by
  induction l generalizing init with
  | nil => exact subset_rfl
  | cons y l ih => exact (hmono init y).trans (ih (f init y))

theorem foldl_single_elem {β : Type} {f : Finset Dep → β → Finset Dep}
    (hmono : ∀ acc x, acc ⊆ f acc x) {x : β} {gx base0 : Finset Dep}
    (hstep : ∀ acc, base0 ⊆ acc → gx ⊆ f acc x) (l : List β) (init : Finset Dep)
    (hbase : base0 ⊆ init) (hx : x ∈ l) : gx ⊆ l.foldl f init := by
  induction l generalizing init with
  | nil => cases hx
  | cons y l ih =>
    rcases List.mem_cons.mp hx with rfl | hx2
    · exact (hstep init hbase).trans (foldl_subset_mono hmono l (f init x))
    · exact ih (f init y) (hbase.trans (hmono init y)) hx2

theorem splitOnChar_cons (sep c : Char) (rest : List Char) :
    splitOnChar sep (c :: rest) =
      match splitOnChar sep rest with
      | [] => [[c]]
      | h :: t => if c == sep then [] :: h :: t else (c :: h) :: t := rfl

theorem splitOnChar_ne_nil (sep : Char) (s : List Char) : splitOnChar sep s ≠ [] := by
  cases s with
  | nil => simp [splitOnChar]
  | cons c rest =>
    rw [splitOnChar_cons]
    cases h : splitOnChar sep rest with
    | nil => simp
    | cons a t =>
      by_cases hcs : (c == sep) = true <;> simp [hcs]

theorem splitOnChar_no_sep (sep : Char) (s : List Char) (h : sep ∉ s) :
    splitOnChar sep s = [s] := by
  induction s with
  | nil => rfl
  | cons c rest ih =>
    have hc : ¬(c == sep) = true := by
      simp only [beq_iff_eq]
      intro hcs
      exact h (hcs ▸ List.mem_cons_self c rest)
    have hrest : sep ∉ rest := fun hm => h (List.mem_cons_of_mem c hm)
    rw [splitOnChar_cons, ih hrest]
    simp [hc]

theorem splitOnChar_append (sep : Char) (P Q : List Char) (hP : sep ∉ P) :
    splitOnChar sep (P ++ sep :: Q) = P :: splitOnChar sep Q := by
  induction P with
  | nil =>
    rw [List.nil_append, splitOnChar_cons]
    cases h : splitOnChar sep Q with
    | nil => exact absurd h (splitOnChar_ne_nil sep Q)
    | cons a t => simp
  | cons c P ih =>
    have hc : ¬(c == sep) = true := by
      simp only [beq_iff_eq]
      intro hcs
      exact hP (hcs ▸ List.mem_cons_self c P)
    have hP2 : sep ∉ P := fun hm => hP (List.mem_cons_of_mem c hm)
    rw [List.cons_append, splitOnChar_cons, ih hP2]
    simp [hc]

theorem contains_of_append_cons (P Q : List Char) (c : Char) :
    (P ++ c :: Q).contains c = true := by
  simp [List.elem_iff]

theorem not_mem_of_contains_false {s : List Char} {c : Char} (h : s.contains c = false) :
    c ∉ s := by
  simp [List.contains, List.elem_iff] at h
  exact h

theorem numericPriority_num {t : Task} (h : numericPriority t = true) :
    ∃ n, priorityValue t.priority = .num n := by
  unfold numericPriority at h
  cases hp : priorityValue t.priority with
  | num n => exact ⟨n, rfl⟩
  | exotic s => rw [hp] at h; cases h

theorem taskCmp_lt_iff (tasks : List Task) (a b : Task)
    (hna : numericPriority a = true) (hnb : numericPriority b = true) :
    taskCmp tasks a b < 0 ↔ rankKey tasks a < rankKey tasks b := by
  obtain ⟨an, han⟩ := numericPriority_num hna
  obtain ⟨bn, hbn⟩ := numericPriority_num hnb
  unfold taskCmp rankKey inProgressRank
  rw [han, hbn]
  simp only [JsPriority.toNum]
  cases ha : a.status == "in-progress" <;> cases hb : b.status == "in-progress" <;>
    simp only [ha, hb, Bool.not_true, Bool.not_false, Bool.and_true, Bool.and_false,
      Bool.true_and, Bool.false_and, if_true, if_false, Bool.false_eq_true, ite_false, ite_true,
      Prod.Lex.lt_iff]
  · by_cases hp : an = bn
    · simp only [hp, ne_eq, not_true_eq_false, ite_false, if_neg (not_not_intro rfl)]
      by_cases hd : (dependentCount tasks a.id : Int) = (dependentCount tasks b.id : Int)
      · simp [hd, Prod.Lex.lt_iff]
      · simp [hd, Prod.Lex.lt_iff]
    · rw [if_pos (by simp [hp])]
      simp [Prod.Lex.lt_iff, hp]
  · simp
  · simp
  · by_cases hp : an = bn
    · simp only [hp, JsPriority.num.injEq, if_neg (not_not_intro rfl)]
      by_cases hd : (dependentCount tasks a.id : Int) = (dependentCount tasks b.id : Int)
      · simp [hd, Prod.Lex.lt_iff]
      · simp [hd, Prod.Lex.lt_iff]
    · rw [if_pos (by simp [hp])]
      simp [Prod.Lex.lt_iff, hp]

theorem taskCmp_exotic_tie (tasks : List Task) (a b : Task)
    (hr : inProgressRank a = inProgressRank b)
    (hne : priorityValue a.priority ≠ priorityValue b.priority)
    (hx : numericPriority a = false ∨ numericPriority b = false) :
    taskCmp tasks a b = 0 := by
  unfold inProgressRank at hr
  have hst : (a.status == "in-progress") = (b.status == "in-progress") := by
    cases ha : a.status == "in-progress" <;> cases hb : b.status == "in-progress" <;>
      simp [ha, hb] at hr ⊢
  unfold taskCmp
  rw [hst]
  simp only [Bool.and_not_self, Bool.false_eq_true, if_false]
  rw [if_pos hne]
  cases hpa : priorityValue a.priority with
  | exotic s => cases hpb : priorityValue b.priority <;> rfl
  | num n =>
    cases hpb : priorityValue b.priority with
    | exotic s => rfl
    | num m =>
      exfalso
      rcases hx with h | h <;> unfold numericPriority at h
      · rw [hpa] at h; cases h
      · rw [hpb] at h; cases h

theorem foldl_min_aux (tasks : List Task) (l : List Task) (t0 : Task)
    (hall : ∀ x, (x = t0 ∨ x ∈ l) → numericPriority x = true) :
    (l.foldl (fun best c => if taskCmp tasks c best < 0 then c else best) t0 = t0 ∨
     l.foldl (fun best c => if taskCmp tasks c best < 0 then c else best) t0 ∈ l) ∧
    ∀ x, (x = t0 ∨ x ∈ l) →
      rankKey tasks (l.foldl (fun best c => if taskCmp tasks c best < 0 then c else best) t0) ≤
        rankKey tasks x := by
  revert hall
  induction l generalizing t0 with
  | nil =>
    intro hall
    refine ⟨Or.inl rfl, ?_⟩
    rintro x (rfl | hx)
    · exact le_refl _
    · cases hx
  | cons c l ih =>
    intro hall
    have hall2 : ∀ x, (x = c ∨ x ∈ l) → numericPriority x = true := by
      intro x hx
      rcases hx with h | h
      · exact hall x (Or.inr (by rw [h]; exact List.mem_cons_self c l))
      · exact hall x (Or.inr (List.mem_cons_of_mem c h))
    have hall3 : ∀ x, (x = t0 ∨ x ∈ l) → numericPriority x = true := by
      intro x hx
      rcases hx with h | h
      · exact hall x (Or.inl h)
      · exact hall x (Or.inr (List.mem_cons_of_mem c h))
    have hnc : numericPriority c = true := hall c (Or.inr (List.mem_cons_self c l))
    have hn0 : numericPriority t0 = true := hall t0 (Or.inl rfl)
    simp only [List.foldl_cons]
    by_cases hc : taskCmp tasks c t0 < 0
    · rw [if_pos hc]
      obtain ⟨hmem, hle⟩ := ih c hall2
      refine ⟨?_, ?_⟩
      · rcases hmem with h | h
        · exact Or.inr (by rw [h]; exact List.mem_cons_self c l)
        · exact Or.inr (List.mem_cons_of_mem c h)
      · intro x hx
        rcases hx with h1 | h1
        · rw [h1]
          exact (hle c (Or.inl rfl)).trans
            (le_of_lt ((taskCmp_lt_iff tasks c t0 hnc hn0).mp hc))
        · rcases List.mem_cons.mp h1 with h2 | h2
          · rw [h2]
            exact hle c (Or.inl rfl)
          · exact hle x (Or.inr h2)
    · rw [if_neg hc]
      obtain ⟨hmem, hle⟩ := ih t0 hall3
      refine ⟨?_, ?_⟩
      · rcases hmem with h | h
        · exact Or.inl h
        · exact Or.inr (List.mem_cons_of_mem c h)
      · intro x hx
        rcases hx with h1 | h1
        · exact hle x (Or.inl h1)
        · rcases List.mem_cons.mp h1 with h2 | h2
          · rw [h2]
            have hct : rankKey tasks t0 ≤ rankKey tasks c := by
              rw [← not_lt]
              intro hlt
              exact hc ((taskCmp_lt_iff tasks c t0 hnc hn0).mpr hlt)
            exact (hle t0 (Or.inl rfl)).trans hct
          · exact hle x (Or.inr h2)

theorem updateFirstM_some_decomp {α : Type} {p : α → Bool} {f : α → Option α} {l l2 : List α}
    (h : updateFirstM p f l = some l2) :
    ∃ l₁ x y l₂, l = l₁ ++ x :: l₂ ∧ l2 = l₁ ++ y :: l₂ ∧ (∀ z ∈ l₁, p z = false) ∧
      p x = true ∧ f x = some y := by
  induction l generalizing l2 with
  | nil => cases h
  | cons a as ih =>
    by_cases hp : p a = true
    · rw [updateFirstM, if_pos hp] at h
      obtain ⟨y, hy, hl2⟩ := Option.map_eq_some'.mp h
      exact ⟨[], a, y, as, rfl, hl2.symm ▸ rfl, by simp, hp, hy⟩
    · rw [updateFirstM, if_neg hp] at h
      obtain ⟨m, hm, hl2⟩ := Option.map_eq_some'.mp h
      obtain ⟨l₁, x, y, l₂, hl, hm2, hnone, hx, hfx⟩ := ih hm
      refine ⟨a :: l₁, x, y, l₂, by rw [hl]; rfl, by rw [← hl2, hm2]; rfl, ?_, hx, hfx⟩
      intro z hz
      rcases List.mem_cons.mp hz with rfl | hz2
      · exact Bool.not_eq_true _ ▸ (by simpa using hp)
      · exact hnone z hz2

theorem updateFirstM_isSome {α : Type} (p : α → Bool) (f : α → Option α) (l : List α) :
    (updateFirstM p f l).isSome =
      (match l.find? p with
       | none => false
       | some x => (f x).isSome) := by
  induction l with
  | nil => rfl
  | cons a as ih =>
    by_cases hp : p a = true
    · rw [updateFirstM, if_pos hp, List.find?_cons_of_pos _ hp]
      simp
    · rw [updateFirstM, if_neg hp, List.find?_cons_of_neg _ hp]
      simp only [Option.isSome_map']
      exact ih

theorem applyStatus_isSome (tasks : List Task) (taskId : List Char) (st : String) :
    (applyStatus tasks taskId st).isSome = (findTaskById tasks taskId).isSome := by
  unfold applyStatus findTaskById
  by_cases hdot : taskId.contains '.' = true
  · simp only [hdot, if_true]
    cases hp : parseIntJs ((splitOnChar '.' taskId).getD 0 []) with
    | none => rfl
    | some pid =>
      rw [updateFirstM_isSome]
      cases hf : tasks.find? (fun t => t.id == pid) with
      | none => simp [hf]
      | some t =>
        cases hs : parseIntJs ((splitOnChar '.' taskId).getD 1 []) with
        | none => simp [hf, hs]
        | some sid =>
          simp only [hf, hs, Option.isSome_map']
          rw [updateFirstM_isSome]
          cases hsf : t.subtasks.find? (fun s => s.id == sid) <;> simp [hf, hs, hsf]
  · simp only [Bool.not_eq_true] at hdot
    simp only [hdot, Bool.false_eq_true, if_false]
    cases hp : parseIntJs taskId with
    | none => rfl
    | some n =>
      rw [updateFirstM_isSome]
      cases hf : tasks.find? (fun t => t.id == n) <;> simp [hf]

theorem frame_id_eq {a b : Task} (h : frameOf a = frameOf b) : a.id = b.id := by
  have h2 := congrArg Prod.fst h
  simpa [frameOf] using h2

theorem frame_subframes_eq {a b : Task} (h : frameOf a = frameOf b) :
    a.subtasks.map subFrame = b.subtasks.map subFrame := by
  have h2 := congrArg (fun x => x.2.2.2.2.2) h
  simpa [frameOf] using h2

theorem subframe_id_eq {a b : Subtask} (h : subFrame a = subFrame b) : a.id = b.id := by
  have h2 := congrArg Prod.fst h
  simpa [subFrame] using h2

theorem find?_frame {ts ts2 : List Task} (h : ts.map frameOf = ts2.map frameOf) (pid : Int) :
    Option.map frameOf (ts.find? (fun t => t.id == pid)) =
      Option.map frameOf (ts2.find? (fun t => t.id == pid)) := by
  induction ts generalizing ts2 with
  | nil =>
    cases ts2 with
    | nil => rfl
    | cons b bs => exact absurd h (by simp)
  | cons a as ih =>
    cases ts2 with
    | nil => exact absurd h (by simp)
    | cons b bs =>
      simp only [List.map_cons, List.cons.injEq] at h
      obtain ⟨hab, hrest⟩ := h
      have hid : a.id = b.id := frame_id_eq hab
      by_cases hp : (a.id == pid) = true
      · have hpb : (b.id == pid) = true := by rwa [← hid]
        rw [@List.find?_cons_of_pos _ (fun t => t.id == pid) a as hp,
          @List.find?_cons_of_pos _ (fun t => t.id == pid) b bs hpb]
        simp [hab]
      · have hpb : ¬(b.id == pid) = true := by rwa [← hid]
        rw [@List.find?_cons_of_neg _ (fun t => t.id == pid) a as hp,
          @List.find?_cons_of_neg _ (fun t => t.id == pid) b bs hpb]
        exact ih hrest

theorem find?_subframe {s1 s2 : List Subtask} (h : s1.map subFrame = s2.map subFrame) (sid : Int) :
    Option.map subFrame (s1.find? (fun s => s.id == sid)) =
      Option.map subFrame (s2.find? (fun s => s.id == sid)) := by
  induction s1 generalizing s2 with
  | nil =>
    cases s2 with
    | nil => rfl
    | cons b bs => exact absurd h (by simp)
  | cons a as ih =>
    cases s2 with
    | nil => exact absurd h (by simp)
    | cons b bs =>
      simp only [List.map_cons, List.cons.injEq] at h
      obtain ⟨hab, hrest⟩ := h
      have hid : a.id = b.id := subframe_id_eq hab
      by_cases hp : (a.id == sid) = true
      · have hpb : (b.id == sid) = true := by rwa [← hid]
        rw [@List.find?_cons_of_pos _ (fun s => s.id == sid) a as hp,
          @List.find?_cons_of_pos _ (fun s => s.id == sid) b bs hpb]
        simp [hab]
      · have hpb : ¬(b.id == sid) = true := by rwa [← hid]
        rw [@List.find?_cons_of_neg _ (fun s => s.id == sid) a as hp,
          @List.find?_cons_of_neg _ (fun s => s.id == sid) b bs hpb]
        exact ih hrest

theorem frames_find_isSome {ts ts2 : List Task} (h : ts.map frameOf = ts2.map frameOf)
    (taskId : List Char) : (findTaskById ts taskId).isSome = (findTaskById ts2 taskId).isSome := by
  unfold findTaskById
  by_cases hdot : taskId.contains '.' = true
  · simp only [hdot, if_true]
    cases hp : parseIntJs ((splitOnChar '.' taskId).getD 0 []) with
    | none => rfl
    | some pid =>
      have hff := find?_frame h pid
      cases hf : ts.find? (fun t => t.id == pid) with
      | none =>
        cases hf2 : ts2.find? (fun t => t.id == pid) with
        | none => simp [hf, hf2]
        | some t2 => rw [hf, hf2] at hff; cases hff
      | some t =>
        cases hf2 : ts2.find? (fun t => t.id == pid) with
        | none => rw [hf, hf2] at hff; cases hff
        | some t2 =>
          rw [hf, hf2] at hff
          have hfr : frameOf t = frameOf t2 := by simpa using hff
          cases hs : parseIntJs ((splitOnChar '.' taskId).getD 1 []) with
          | none => simp [hf, hf2, hs]
          | some sid =>
            have hsf := find?_subframe (frame_subframes_eq hfr) sid
            cases h1 : t.subtasks.find? (fun s => s.id == sid) with
            | none =>
              cases h2 : t2.subtasks.find? (fun s => s.id == sid) with
              | none => simp [hf, hf2, hs, h1, h2]
              | some w => rw [h1, h2] at hsf; cases hsf
            | some v =>
              cases h2 : t2.subtasks.find? (fun s => s.id == sid) with
              | none => rw [h1, h2] at hsf; cases hsf
              | some w => simp [hf, hf2, hs, h1, h2]
  · simp only [Bool.not_eq_true] at hdot
    simp only [hdot, Bool.false_eq_true, if_false]
    cases hp : parseIntJs taskId with
    | none => rfl
    | some n =>
      have hff := find?_frame h n
      cases hf : ts.find? (fun t => t.id == n) with
      | none =>
        cases hf2 : ts2.find? (fun t => t.id == n) with
        | none => simp [hf, hf2]
        | some t2 => rw [hf, hf2] at hff; cases hff
      | some t =>
        cases hf2 : ts2.find? (fun t => t.id == n) with
        | none => rw [hf, hf2] at hff; cases hff
        | some t2 => simp [hf, hf2]

theorem applyStatus_frames {tasks ts2 : List Task} {taskId : List Char} {st : String}
    (h : applyStatus tasks taskId st = some ts2) : ts2.map frameOf = tasks.map frameOf := by
  unfold applyStatus at h
  by_cases hdot : taskId.contains '.' = true
  · simp only [hdot, if_true] at h
    cases hp : parseIntJs ((splitOnChar '.' taskId).getD 0 []) with
    | none => rw [hp] at h; exact Option.noConfusion h
    | some pid =>
      simp only [hp] at h
      obtain ⟨l₁, x, y, l₂, hl, hl2, hnone, hx, hfx⟩ := updateFirstM_some_decomp h
      cases hs : parseIntJs ((splitOnChar '.' taskId).getD 1 []) with
      | none => rw [hs] at hfx; exact Option.noConfusion hfx
      | some sid =>
        simp only [hs] at hfx
        obtain ⟨sts, hsts, hy⟩ := Option.map_eq_some'.mp hfx
        obtain ⟨s₁, v, w, s₂, hsl, hsl2, hsnone, hv, hw⟩ := updateFirstM_some_decomp hsts
        have hw2 : w = { v with status := st } := (Option.some.inj hw).symm
        have hsub : subFrame w = subFrame v := by rw [hw2]; rfl
        have hmaps : sts.map subFrame = x.subtasks.map subFrame := by
          rw [hsl2, hsl]
          simp [hsub]
        have hfr : frameOf y = frameOf x := by
          rw [← hy]
          simp [frameOf, hmaps]
        rw [hl, hl2]
        simp [hfr]
  · simp only [Bool.not_eq_true] at hdot
    simp only [hdot, Bool.false_eq_true, if_false] at h
    cases hp : parseIntJs taskId with
    | none => rw [hp] at h; exact Option.noConfusion h
    | some n =>
      simp only [hp] at h
      obtain ⟨l₁, x, y, l₂, hl, hl2, hnone, hx, hfx⟩ := updateFirstM_some_decomp h
      have hy : y = { x with status := st } := (Option.some.inj hfx).symm
      have hfr : frameOf y = frameOf x := by rw [hy]; rfl
      rw [hl, hl2]
      simp [hfr]

theorem applyStatus_shape {tasks ts2 : List Task} {id2 : List Char} {st : String}
    (h : applyStatus tasks id2 st = some ts2) :
    (∃ l₁ x y l₂, tasks = l₁ ++ x :: l₂ ∧ ts2 = l₁ ++ y :: l₂ ∧
      y = { x with status := st }) ∨
    (∃ l₁ x y l₂ s₁ v w s₂, tasks = l₁ ++ x :: l₂ ∧ ts2 = l₁ ++ y :: l₂ ∧
      x.subtasks = s₁ ++ v :: s₂ ∧
      y = { x with subtasks := s₁ ++ w :: s₂ } ∧ w = { v with status := st }) := by
  unfold applyStatus at h
  by_cases hdot : id2.contains '.' = true
  · simp only [hdot, if_true] at h
    cases hp : parseIntJs ((splitOnChar '.' id2).getD 0 []) with
    | none => rw [hp] at h; exact Option.noConfusion h
    | some pid =>
      simp only [hp] at h
      obtain ⟨l₁, x, y, l₂, hl, hl2, hnone, hx, hfx⟩ := updateFirstM_some_decomp h
      cases hs : parseIntJs ((splitOnChar '.' id2).getD 1 []) with
      | none => rw [hs] at hfx; exact Option.noConfusion hfx
      | some sid =>
        simp only [hs] at hfx
        obtain ⟨sts, hsts, hy⟩ := Option.map_eq_some'.mp hfx
        obtain ⟨s₁, v, w, s₂, hsl, hsl2, hsnone, hv, hw⟩ := updateFirstM_some_decomp hsts
        right
        exact ⟨l₁, x, y, l₂, s₁, v, w, s₂, hl, hl2, hsl,
          by rw [← hy, hsl2], (Option.some.inj hw).symm⟩
  · simp only [Bool.not_eq_true] at hdot
    simp only [hdot, Bool.false_eq_true, if_false] at h
    cases hp : parseIntJs id2 with
    | none => rw [hp] at h; exact Option.noConfusion h
    | some n =>
      simp only [hp] at h
      obtain ⟨l₁, x, y, l₂, hl, hl2, hnone, hx, hfx⟩ := updateFirstM_some_decomp h
      left
      exact ⟨l₁, x, y, l₂, hl, hl2, (Option.some.inj hfx).symm⟩

theorem find?_middle {α : Type} (q : α → Bool) (l₁ l₂ : List α) (x y : α) (hq : q y = q x) :
    ((l₁ ++ y :: l₂).find? q = some y ∧ (l₁ ++ x :: l₂).find? q = some x) ∨
    ((l₁ ++ y :: l₂).find? q = (l₁ ++ x :: l₂).find? q) := by
  rw [List.find?_append, List.find?_append]
  cases h1 : l₁.find? q with
  | some z => right; rfl
  | none =>
    simp only [Option.none_or]
    by_cases hqx : q x = true
    · have hqy : q y = true := by rw [hq]; exact hqx
      left
      exact ⟨@List.find?_cons_of_pos _ q y l₂ hqy, @List.find?_cons_of_pos _ q x l₂ hqx⟩
    · have hqy : ¬q y = true := by rw [hq]; exact hqx
      right
      rw [@List.find?_cons_of_neg _ q y l₂ hqy, @List.find?_cons_of_neg _ q x l₂ hqx]

theorem applyStatus_other {tasks ts2 : List Task} {id2 : List Char} {st : String}
    (h : applyStatus tasks id2 st = some ts2) (idq : List Char) :
    resolvedStatusAt ts2 idq = resolvedStatusAt tasks idq ∨
      resolvedStatusAt ts2 idq = some st := by
  rcases applyStatus_shape h with
    ⟨l₁, x, y, l₂, hl, hl2, hy⟩ | ⟨l₁, x, y, l₂, s₁, v, w, s₂, hl, hl2, hxs, hy, hw⟩
  · subst hl hl2 hy
    unfold resolvedStatusAt findTaskById
    by_cases hdot : idq.contains '.' = true
    · simp only [hdot, if_true]
      cases hp : parseIntJs ((splitOnChar '.' idq).getD 0 []) with
      | none => left; rfl
      | some pid =>
        rcases find?_middle (fun t => t.id == pid) l₁ l₂ x { x with status := st } rfl with
          ⟨hy1, hx1⟩ | heq
        · left
          cases hs : parseIntJs ((splitOnChar '.' idq).getD 1 []) with
          | none => simp [hy1, hx1, hs]
          | some sid =>
            cases hsf : x.subtasks.find? (fun s => s.id == sid) with
            | none => simp [hy1, hx1, hs, hsf]
            | some u => simp [hy1, hx1, hs, hsf]
        · left
          simp only [heq]
    · simp only [Bool.not_eq_true] at hdot
      simp only [hdot, Bool.false_eq_true, if_false]
      cases hp : parseIntJs idq with
      | none => left; rfl
      | some n =>
        rcases find?_middle (fun t => t.id == n) l₁ l₂ x { x with status := st } rfl with
          ⟨hy1, hx1⟩ | heq
        · right
          simp [hy1]
        · left
          simp only [heq]
  · subst hl hl2 hy hw
    unfold resolvedStatusAt findTaskById
    by_cases hdot : idq.contains '.' = true
    · simp only [hdot, if_true]
      cases hp : parseIntJs ((splitOnChar '.' idq).getD 0 []) with
      | none => left; rfl
      | some pid =>
        rcases find?_middle (fun t => t.id == pid) l₁ l₂ x
            { x with subtasks := s₁ ++ { v with status := st } :: s₂ } rfl with
          ⟨hy1, hx1⟩ | heq
        · cases hs : parseIntJs ((splitOnChar '.' idq).getD 1 []) with
          | none => left; simp [hy1, hx1, hs]
          | some sid =>
            rcases find?_middle (fun s => s.id == sid) s₁ s₂ v { v with status := st } rfl with
              ⟨hw1, hw2⟩ | heq2
            · right
              simp [hy1, hx1, hs, hw1]
            · left
              cases hq2 : (s₁ ++ v :: s₂).find? (fun s => s.id == sid) with
              | none => simp [hy1, hx1, hs, hxs, heq2, hq2]
              | some u => simp [hy1, hx1, hs, hxs, heq2, hq2]
        · left
          simp only [heq]
    · simp only [Bool.not_eq_true] at hdot
      simp only [hdot, Bool.false_eq_true, if_false]
      cases hp : parseIntJs idq with
      | none => left; rfl
      | some n =>
        rcases find?_middle (fun t => t.id == n) l₁ l₂ x
            { x with subtasks := s₁ ++ { v with status := st } :: s₂ } rfl with
          ⟨hy1, hx1⟩ | heq
        · left
          simp [hy1, hx1]
        · left
          simp only [heq]

theorem applyStatus_resolvedStatus {tasks ts2 : List Task} {taskId : List Char} {st : String}
    (h : applyStatus tasks taskId st = some ts2) :
    resolvedStatusAt ts2 taskId = some st := by
  unfold applyStatus at h
  by_cases hdot : taskId.contains '.' = true
  · simp only [hdot, if_true] at h
    cases hp : parseIntJs ((splitOnChar '.' taskId).getD 0 []) with
    | none => rw [hp] at h; exact Option.noConfusion h
    | some pid =>
      simp only [hp] at h
      obtain ⟨l₁, x, y, l₂, hl, hl2, hnone, hx, hfx⟩ := updateFirstM_some_decomp h
      cases hs : parseIntJs ((splitOnChar '.' taskId).getD 1 []) with
      | none => rw [hs] at hfx; exact Option.noConfusion hfx
      | some sid =>
        simp only [hs] at hfx
        obtain ⟨sts, hsts, hy⟩ := Option.map_eq_some'.mp hfx
        obtain ⟨s₁, v, w, s₂, hsl, hsl2, hsnone, hv, hw⟩ := updateFirstM_some_decomp hsts
        have hw2 : w = { v with status := st } := (Option.some.inj hw).symm
        have hn1 : l₁.find? (fun t => t.id == pid) = none :=
          List.find?_eq_none.mpr (fun z hz => by simp [hnone z hz])
        have hyid : (y.id == pid) = true := by rw [← hy]; exact hx
        have hfind : ts2.find? (fun t => t.id == pid) = some y := by
          rw [hl2, List.find?_append, hn1, Option.none_or,
            @List.find?_cons_of_pos _ (fun t => t.id == pid) y l₂ hyid]
        have hns : s₁.find? (fun s => s.id == sid) = none :=
          List.find?_eq_none.mpr (fun z hz => by simp [hsnone z hz])
        have hwid : (w.id == sid) = true := by rw [hw2]; exact hv
        have hysub : y.subtasks = s₁ ++ w :: s₂ := by rw [← hy]; exact hsl2
        have hsfind : y.subtasks.find? (fun s => s.id == sid) = some w := by
          rw [hysub, List.find?_append, hns, Option.none_or,
            @List.find?_cons_of_pos _ (fun s => s.id == sid) w s₂ hwid]
        unfold resolvedStatusAt findTaskById
        simp only [hdot, if_true, hp, hfind, hs, hsfind, hw2]
  · simp only [Bool.not_eq_true] at hdot
    simp only [hdot, Bool.false_eq_true, if_false] at h
    cases hp : parseIntJs taskId with
    | none => rw [hp] at h; exact Option.noConfusion h
    | some n =>
      simp only [hp] at h
      obtain ⟨l₁, x, y, l₂, hl, hl2, hnone, hx, hfx⟩ := updateFirstM_some_decomp h
      have hy : y = { x with status := st } := (Option.some.inj hfx).symm
      have hn1 : l₁.find? (fun t => t.id == n) = none :=
        List.find?_eq_none.mpr (fun z hz => by simp [hnone z hz])
      have hyid : (y.id == n) = true := by rw [hy]; exact hx
      have hfind : ts2.find? (fun t => t.id == n) = some y := by
        rw [hl2, List.find?_append, hn1, Option.none_or,
          @List.find?_cons_of_pos _ (fun t => t.id == n) y l₂ hyid]
      unfold resolvedStatusAt findTaskById
      simp only [hdot, Bool.false_eq_true, if_false, hp, hfind, hy]
      rfl

theorem setTaskStatusLoop_preserve (st : String) (id0 : List Char) :
    ∀ (ids : List (List Char)) (tasks : List Task), resolvedStatusAt tasks id0 = some st →
      resolvedStatusAt (setTaskStatusLoop tasks ids st).1 id0 = some st := by
  intro ids
  induction ids with
  | nil => intro tasks h0; exact h0
  | cons id rest ih =>
    intro tasks h0
    rw [setTaskStatusLoop]
    cases ha : applyStatus tasks id st with
    | some ts2 =>
      simp only [ha]
      refine ih ts2 ?_
      rcases applyStatus_other ha id0 with h1 | h1
      · rw [h1]; exact h0
      · exact h1
    | none =>
      simp only [ha]
      exact ih tasks h0

theorem setTaskStatusLoop_spec (st : String) :
    ∀ (ids : List (List Char)) (tasks : List Task),
      ((setTaskStatusLoop tasks ids st).1.map frameOf = tasks.map frameOf) ∧
      (setTaskStatusLoop tasks ids st).2.1 =
        ids.filter (fun id => (findTaskById tasks id).isSome) ∧
      (setTaskStatusLoop tasks ids st).2.2 =
        ids.filter (fun id => !(findTaskById tasks id).isSome) ∧
      ∀ id ∈ ids, (findTaskById tasks id).isSome = true →
        resolvedStatusAt (setTaskStatusLoop tasks ids st).1 id = some st := by
  intro ids
  induction ids with
  | nil => intro tasks; exact ⟨rfl, rfl, rfl, by simp⟩
  | cons id rest ih =>
    intro tasks
    rw [setTaskStatusLoop]
    cases ha : applyStatus tasks id st with
    | none =>
      have hnot : (findTaskById tasks id).isSome = false := by
        rw [← applyStatus_isSome tasks id st, ha]; rfl
      obtain ⟨ihf, ihu, ihe, ihs⟩ := ih tasks
      have hn : findTaskById tasks id = none := by
        cases hfd : findTaskById tasks id with
        | none => rfl
        | some r => rw [hfd] at hnot; cases hnot
      simp only [ha]
      refine ⟨ihf, ?_, ?_, ?_⟩
      · simp [List.filter_cons, hnot, ihu]
      · rw [ihe, List.filter_cons]
        have hcond : (!(findTaskById tasks id).isSome) = true := by rw [hnot]; rfl
        simp [hcond]
      · intro id2 hmem hsome
        rcases List.mem_cons.mp hmem with rfl | hmem2
        · rw [hsome] at hnot; cases hnot
        · exact ihs id2 hmem2 hsome
    | some ts2 =>
      have hsome : (findTaskById tasks id).isSome = true := by
        rw [← applyStatus_isSome tasks id st, ha]; rfl
      have hfr : ts2.map frameOf = tasks.map frameOf := applyStatus_frames ha
      obtain ⟨ihf, ihu, ihe, ihs⟩ := ih ts2
      have hcong : ∀ id2 ∈ rest,
          (fun i => (findTaskById ts2 i).isSome) id2 =
            (fun i => (findTaskById tasks i).isSome) id2 :=
        fun id2 _ => frames_find_isSome hfr id2
      have hcong2 : ∀ id2 ∈ rest,
          (fun i => !(findTaskById ts2 i).isSome) id2 =
            (fun i => !(findTaskById tasks i).isSome) id2 :=
        fun id2 _ => by simp only [frames_find_isSome hfr id2]
      simp only [ha]
      refine ⟨?_, ?_, ?_, ?_⟩
      · rw [ihf, hfr]
      · rw [ihu, List.filter_congr hcong]
        simp [List.filter_cons, hsome]
      · rw [ihe, List.filter_congr hcong2, List.filter_cons]
        have hcond : (!(findTaskById tasks id).isSome) = false := by rw [hsome]; rfl
        simp [hcond]
      · intro id2 hmem hsome2
        rcases List.mem_cons.mp hmem with rfl | hmem2
        · exact setTaskStatusLoop_preserve st id2 rest ts2 (applyStatus_resolvedStatus ha)
        · refine ihs id2 hmem2 ?_
          rw [frames_find_isSome hfr id2]
          exact hsome2

theorem runSetTaskStatus_writeFail (tasks : List Task) (raw : List Char) (st : String) :
    (runSetTaskStatus tasks raw st false).2 = tasks ∧
    ((runSetTaskStatus tasks raw st false).1.updatedIds ≠ [] →
      (runSetTaskStatus tasks raw st false).1.isError = true) := by
  by_cases hv : isValidTaskStatus st = true
  · simp only [runSetTaskStatus, hv, Bool.not_true, Bool.false_eq_true, if_false]
    by_cases hlen :
        0 < (setTaskStatusLoop tasks ((splitOnChar ',' raw).map jsTrim) st).2.1.length
    · simp [hlen]
    · simp only [hlen, if_false]
      refine ⟨trivial, fun hne => ?_⟩
      exfalso
      exact hlen (List.length_pos.mpr hne)
  · have hv2 : isValidTaskStatus st = false := by
      cases h : isValidTaskStatus st
      · rfl
      · exact absurd h hv
    simp [runSetTaskStatus, hv2]

theorem runSetTaskStatus_persistSuccess (tasks : List Task) (raw : List Char) (st : String)
    (hv : isValidTaskStatus st = true)
    (hlen : 0 < (setTaskStatusLoop tasks ((splitOnChar ',' raw).map jsTrim) st).2.1.length) :
    (runSetTaskStatus tasks raw st true).2 =
      (setTaskStatusLoop tasks ((splitOnChar ',' raw).map jsTrim) st).1 := by
  simp [runSetTaskStatus, hv, hlen]

theorem runSetTaskStatus_frames (tasks : List Task) (raw : List Char) (st : String)
    (wOk : Bool) :
    ((runSetTaskStatus tasks raw st wOk).2).map frameOf = tasks.map frameOf := by
  obtain ⟨hf, hu, he, hs⟩ := setTaskStatusLoop_spec st ((splitOnChar ',' raw).map jsTrim) tasks
  by_cases hv : isValidTaskStatus st = true
  · simp only [runSetTaskStatus, hv, Bool.not_true, Bool.false_eq_true, if_false]
    by_cases hlen :
        0 < (setTaskStatusLoop tasks ((splitOnChar ',' raw).map jsTrim) st).2.1.length
    · cases wOk
      · simp [hlen]
      · simp only [hlen, if_true]
        exact hf
    · simp [hlen]
  · have hv2 : isValidTaskStatus st = false := by
      cases h : isValidTaskStatus st
      · rfl
      · exact absurd h hv
    simp [runSetTaskStatus, hv2]

theorem runClearSubtasks_writeFail (tasks : List Task) (ids : Option (List Char)) (all : Bool)
    (now : String) :
    (runClearSubtasks tasks ids all now false).2 = tasks ∧
    ((runClearSubtasks tasks ids all now false).1.clearedIds ≠ [] →
      (runClearSubtasks tasks ids all now false).1.isError = true) := by
  unfold runClearSubtasks
  by_cases hall : all = true
  · simp only [hall, if_true]
    by_cases hemp : (tasks.filter (clearTargetPred [] true)).isEmpty = true
    · simp [hemp]
    · simp [hemp]
  · have hall2 : all = false := by
      cases h : all
      · rfl
      · exact absurd h hall
    cases ids with
    | none => simp [hall2]
    | some raw =>
      simp only [hall2, Bool.false_eq_true, if_false]
      by_cases hemp : (tasks.filter
          (clearTargetPred ((splitOnChar ',' raw).map (fun s => parseIntJs (jsTrim s))) false)).isEmpty = true
      · simp [hemp]
      · simp [hemp]

theorem runClearSubtasks_stamps (tasks : List Task) (ids : Option (List Char)) (all : Bool)
    (now : String) :
    ∀ i ∈ (runClearSubtasks tasks ids all now true).1.clearedIds,
      ∃ t ∈ (runClearSubtasks tasks ids all now true).2,
        t.id = i ∧ t.subtasks = [] ∧ t.updatedAt = now := by
  unfold runClearSubtasks
  have main : ∀ (p : Task → Bool),
      ∀ i ∈ (tasks.filter p).map (fun t => t.id),
        ∃ t ∈ tasks.map (fun t => if p t then { t with subtasks := [], updatedAt := now } else t),
          t.id = i ∧ t.subtasks = [] ∧ t.updatedAt = now := by
    intro p i hi
    obtain ⟨t0, ht0, hid⟩ := List.mem_map.mp hi
    obtain ⟨ht0mem, ht0p⟩ := List.mem_filter.mp ht0
    refine ⟨{ t0 with subtasks := [], updatedAt := now }, ?_, hid, rfl, rfl⟩
    have heq : (if p t0 then { t0 with subtasks := [], updatedAt := now } else t0) =
        { t0 with subtasks := [], updatedAt := now } := by rw [if_pos ht0p]
    rw [← heq]
    exact List.mem_map_of_mem _ ht0mem
  by_cases hall : all = true
  · simp only [hall, if_true]
    by_cases hemp : (tasks.filter (clearTargetPred [] true)).isEmpty = true
    · simp [hemp]
    · simp only [hemp, Bool.false_eq_true, if_false]
      exact main (clearTargetPred [] true)
  · have hall2 : all = false := by
      cases h : all
      · rfl
      · exact absurd h hall
    cases ids with
    | none => simp [hall2]
    | some raw =>
      simp only [hall2, Bool.false_eq_true, if_false]
      by_cases hemp : (tasks.filter
          (clearTargetPred ((splitOnChar ',' raw).map (fun s => parseIntJs (jsTrim s))) false)).isEmpty = true
      · simp [hemp]
      · simp only [hemp, Bool.false_eq_true, if_false]
        exact main (clearTargetPred ((splitOnChar ',' raw).map (fun s => parseIntJs (jsTrim s))) false)

theorem runAddDependency_writeFail (tasks : List Task) (a b : List Char) (now : String) :
    (runAddDependency tasks a b now false).2 = tasks ∧
    (runAddDependency tasks a b now false).1 ≠ .ok := by
  unfold runAddDependency
  cases h1 : findTaskById tasks a with
  | none => exact ⟨rfl, by simp⟩
  | some r1 =>
    cases h2 : findTaskById tasks b with
    | none => exact ⟨rfl, by simp⟩
    | some r2 =>
      by_cases heq : (a == b) = true
      · simp [heq]
      · simp only [heq, Bool.false_eq_true, if_false]
        cases hdup : (findResultDeps r1).contains (mkDependencyId b) with
        | true => simp [hdup]
        | false =>
          simp only [hdup, Bool.false_eq_true, if_false]
          cases hm : addDependencyMutate tasks a (mkDependencyId b) now with
          | none => exact ⟨rfl, by simp⟩
          | some newTasks => exact ⟨rfl, by simp⟩

theorem addDependencyMutate_stamps (tasks : List Task) (a : List Char) (depId : Dep)
    (now : String) (nt : List Task) (h : addDependencyMutate tasks a depId now = some nt) :
    ∃ l₁ t t2 l₂, tasks = l₁ ++ t :: l₂ ∧ nt = l₁ ++ t2 :: l₂ ∧
      t2.id = t.id ∧ t2.updatedAt = now ∧
      (a.contains '.' = false →
        t2 = { t with dependencies := t.dependencies ++ [depId], updatedAt := now }) ∧
      (a.contains '.' = true →
        t2.dependencies = t.dependencies ∧
        ∃ s₁ s s2 s₂, t.subtasks = s₁ ++ s :: s₂ ∧ t2.subtasks = s₁ ++ s2 :: s₂ ∧
          s2 = { s with dependencies := s.dependencies ++ [depId] }) := by
  unfold addDependencyMutate at h
  cases hdot : a.contains '.' with
  | false =>
    rw [if_neg (by rw [hdot]; exact Bool.false_ne_true)] at h
    cases hp : parseIntJs a with
    | none => rw [hp] at h; exact Option.noConfusion h
    | some n =>
      rw [hp] at h
      obtain ⟨l₁, x, y, l₂, he1, he2, hz, hpx, hf⟩ := updateFirstM_some_decomp h
      have hy : y = { x with dependencies := x.dependencies ++ [depId], updatedAt := now } :=
        (Option.some.inj hf).symm
      refine ⟨l₁, x, y, l₂, he1, he2, ?_, ?_, fun _ => hy, fun hcon => ?_⟩
      · rw [hy]
      · rw [hy]
      · exact Bool.noConfusion hcon
  | true =>
    rw [if_pos hdot] at h
    have h2 : (match parseIntJs ((splitOnChar '.' a).getD 0 []) with
        | none => none
        | some pid =>
          updateFirstM (fun t => t.id == pid)
            (fun t =>
              match parseIntJs ((splitOnChar '.' a).getD 1 []) with
              | none => none
              | some sid =>
                (updateFirstM (fun s => s.id == sid)
                    (fun s => some { s with dependencies := s.dependencies ++ [depId] })
                    t.subtasks).map
                  (fun sts => { t with subtasks := sts, updatedAt := now }))
            tasks) = some nt := h
    cases hp : parseIntJs ((splitOnChar '.' a).getD 0 []) with
    | none => rw [hp] at h2; exact Option.noConfusion h2
    | some pid =>
      rw [hp] at h2
      obtain ⟨l₁, x, y, l₂, he1, he2, hz, hpx, hf⟩ := updateFirstM_some_decomp h2
      cases hs : parseIntJs ((splitOnChar '.' a).getD 1 []) with
      | none => rw [hs] at hf; exact Option.noConfusion hf
      | some sid =>
        rw [hs] at hf
        obtain ⟨sts, hsts, hy⟩ := Option.map_eq_some'.mp hf
        obtain ⟨s₁, s, s2, s₂, hse1, hse2, hsz, hsp, hsf⟩ := updateFirstM_some_decomp hsts
        have hs2 : s2 = { s with dependencies := s.dependencies ++ [depId] } :=
          (Option.some.inj hsf).symm
        refine ⟨l₁, x, y, l₂, he1, he2, ?_, ?_, fun hcon => ?_, fun _ => ?_⟩
        · rw [← hy]
        · rw [← hy]
        · exact Bool.noConfusion hcon
        · refine ⟨by rw [← hy], s₁, s, s2, s₂, hse1, ?_, hs2⟩
          rw [← hy]
          exact hse2

theorem runAddDependency_success (tasks : List Task) (a b : List Char) (now : String)
    (nt : List Task) (h : runAddDependency tasks a b now true = (.ok, nt)) :
    addDependencyMutate tasks a (mkDependencyId b) now = some nt := by
  unfold runAddDependency at h
  cases h1 : findTaskById tasks a with
  | none =>
    rw [h1] at h
    exact AddDepResult.noConfusion (congrArg Prod.fst h)
  | some r1 =>
    rw [h1] at h
    cases h2 : findTaskById tasks b with
    | none =>
      rw [h2] at h
      exact AddDepResult.noConfusion (congrArg Prod.fst h)
    | some r2 =>
      rw [h2] at h
      have h3 : (if (a == b) = true then ((AddDepResult.errSelf, tasks) : AddDepResult × List Task)
          else if (findResultDeps r1).contains (mkDependencyId b) = true then
            (AddDepResult.errDuplicate, tasks)
          else match addDependencyMutate tasks a (mkDependencyId b) now with
            | none => (AddDepResult.errTaskNotFound, tasks)
            | some newTasks => (AddDepResult.ok, newTasks)) = (.ok, nt) := h
      by_cases heq : (a == b) = true
      · rw [if_pos heq] at h3
        exact AddDepResult.noConfusion (congrArg Prod.fst h3)
      · rw [if_neg heq] at h3
        cases hdup : (findResultDeps r1).contains (mkDependencyId b) with
        | true =>
          rw [if_pos hdup] at h3
          exact AddDepResult.noConfusion (congrArg Prod.fst h3)
        | false =>
          rw [if_neg (by rw [hdup]; exact Bool.false_ne_true)] at h3
          cases hm : addDependencyMutate tasks a (mkDependencyId b) now with
          | none =>
            rw [hm] at h3
            exact AddDepResult.noConfusion (congrArg Prod.fst h3)
          | some newTasks =>
            rw [hm] at h3
            exact congrArg some (congrArg Prod.snd h3)

theorem mem_completedTaskIds (tasks : List Task) (i : Int) :
    i ∈ completedTaskIds tasks ↔
      ∃ u ∈ tasks, u.id = i ∧ (u.status = "done" ∨ u.status = "completed") := by
  constructor
  · intro hm
    obtain ⟨u, hu, hid⟩ := List.mem_map.mp hm
    obtain ⟨humem, hp⟩ := List.mem_filter.mp hu
    have hst : u.status = "done" ∨ u.status = "completed" := by
      simpa [isCompletedStatus] using hp
    exact ⟨u, humem, hid, hst⟩
  · rintro ⟨u, humem, hid, hst⟩
    refine List.mem_map.mpr ⟨u, List.mem_filter.mpr ⟨humem, ?_⟩, hid⟩
    rcases hst with h | h <;> simp [isCompletedStatus, h]

theorem isEligibleTask_iff (tasks : List Task) (t : Task) :
    isEligibleTask tasks t = true ↔
      (t.status ∉ (["done", "completed", "blocked", "deferred", "cancelled"] : List String)) ∧
      ∀ dep ∈ t.dependencies, ∃ i, dep = Dep.plain i ∧ i ∈ completedTaskIds tasks := by
  unfold isEligibleTask
  by_cases h1 : isCompletedStatus t.status = true
  · have hst : t.status = "done" ∨ t.status = "completed" := by
      simpa [isCompletedStatus] using h1
    simp only [h1, if_true]
    constructor
    · intro hcc; cases hcc
    · rintro ⟨hnot, _⟩
      exfalso
      rcases hst with h | h <;> simp [h] at hnot
  · have h1f : isCompletedStatus t.status = false := by
      cases h : isCompletedStatus t.status
      · rfl
      · exact absurd h h1
    simp only [h1f, Bool.false_eq_true, if_false]
    by_cases h2 : (t.status == "blocked" || t.status == "deferred" || t.status == "cancelled") = true
    · simp only [h2, if_true]
      constructor
      · intro hcc; cases hcc
      · rintro ⟨hnot, _⟩
        exfalso
        have h2a : (t.status = "blocked" ∨ t.status = "deferred") ∨ t.status = "cancelled" := by
          simpa using h2
        rcases h2a with (h | h) | h <;> simp [h] at hnot
    · have h2f : (t.status == "blocked" || t.status == "deferred" || t.status == "cancelled") = false := by
        cases h : (t.status == "blocked" || t.status == "deferred" || t.status == "cancelled")
        · rfl
        · exact absurd h h2
      simp only [h2f, Bool.false_eq_true, if_false]
      have hstat : t.status ∉ (["done", "completed", "blocked", "deferred", "cancelled"] : List String) := by
        intro hmem
        simp only [List.mem_cons, List.not_mem_nil, or_false] at hmem
        rcases hmem with h | h | h | h | h
        · rw [h] at h1f; simp [isCompletedStatus] at h1f
        · rw [h] at h1f; simp [isCompletedStatus] at h1f
        · rw [h] at h2f; simp at h2f
        · rw [h] at h2f; simp at h2f
        · rw [h] at h2f; simp at h2f
      cases hdeps : t.dependencies with
      | nil => simp [hstat]
      | cons d ds =>
        simp only [List.length_cons, if_pos (Nat.succ_pos ds.length), List.all_eq_true]
        constructor
        · intro hall
          refine ⟨hstat, ?_⟩
          intro dep hdep
          have hd := hall dep hdep
          cases dep with
          | plain i =>
            refine ⟨i, rfl, ?_⟩
            simpa [List.elem_iff] using hd
          | sub p s2 => cases hd
        · rintro ⟨_, hdeps2⟩
          intro dep hdep
          obtain ⟨i, hdi, hmem⟩ := hdeps2 dep hdep
          subst hdi
          simpa [List.elem_iff] using hmem

/-! Claim theorems. -/

/-- Claim C1, counterexample: in a collection where subtask 1.1 is done and
task 2 depends on the composite id "1.1", that dependency resolves to a
done subtask (so the claim says task 2 is kept), yet the next-task
eligibility filter excludes task 2 — the filter only consults top-level
completed task ids, never subtask statuses. -/
theorem c1_counterexample :
    areAllDependenciesCompleted [Dep.sub 1 1] c1Tasks = true ∧
    ({ id := 2, status := "pending", dependencies := [Dep.sub 1 1] } : Task) ∉
      eligibleTasks c1Tasks := by
  constructor
  · decide
  · decide

/-- Claim C1, amended: the next-task eligibility filter keeps a task if and
only if its status is outside done, completed, blocked, deferred and
cancelled, and every one of its dependency identifiers is a plain numeric
task id belonging to a top-level task whose status is done or completed; a
composite subtask dependency is never satisfied, and a task with no
dependencies is vacuously eligible. -/
theorem c1_eligibility_filter_amended (tasks : List Task) (t : Task) :
    t ∈ eligibleTasks tasks ↔
      t ∈ tasks ∧
      (t.status ∉ (["done", "completed", "blocked", "deferred", "cancelled"] : List String)) ∧
      ∀ dep ∈ t.dependencies, ∃ i, dep = Dep.plain i ∧
        ∃ u ∈ tasks, u.id = i ∧ (u.status = "done" ∨ u.status = "completed") := by
  rw [eligibleTasks, List.mem_filter, isEligibleTask_iff]
  simp only [mem_completedTaskIds, and_assoc]

/-- Claim C1, witness: the amended filter characterisation evaluated on the
concrete two-task collection. -/
theorem c1_witness :
    ({ id := 1, status := "pending",
       subtasks := [{ id := 1, status := "done" }] } : Task) ∈ eligibleTasks c1Tasks ↔
      ({ id := 1, status := "pending",
         subtasks := [{ id := 1, status := "done" }] } : Task) ∈ c1Tasks ∧
      ("pending" ∉ (["done", "completed", "blocked", "deferred", "cancelled"] : List String)) ∧
      ∀ dep ∈ ([] : List Dep), ∃ i, dep = Dep.plain i ∧
        ∃ u ∈ c1Tasks, u.id = i ∧ (u.status = "done" ∨ u.status = "completed") :=
  c1_eligibility_filter_amended c1Tasks
    { id := 1, status := "pending", subtasks := [{ id := 1, status := "done" }] }

/-- Claim C2, counterexample: with maxDepth zero the relevance chain is the
empty set, so it does not include the seed task 1 even though task 1 is
present in the collection — the depth guard returns before the
unconditional expansion level. -/
theorem c2_counterexample :
    buildRelevantTasksChain c2Tasks 1 ∅ 0 = ∅ ∧
    Dep.plain 1 ∉ buildRelevantTasksChain c2Tasks 1 ∅ 0 := by
  exact ⟨rfl, by decide⟩

/-- Claim C2, amended: the id-seeded relevance chain invoked with
maxDepth = 0 returns the empty set; for every positive depth the result
includes the seed id itself, and when the seed resolves to a task in the
collection it also includes that task's direct relevantTasks, its direct
dependencies, and the ids of all tasks whose dependency list contains the
seed id. -/
theorem c2_relevance_chain_amended (allTasks : List Task) (T : Int) (d : ℕ) :
    buildRelevantTasksChain allTasks T ∅ 0 = ∅ ∧
    Dep.plain T ∈ buildRelevantTasksChain allTasks T ∅ (d + 1) ∧
    (∀ t0, allTasks.find? (fun t => t.id == T) = some t0 →
      (∀ i ∈ t0.relevantTasks, Dep.plain i ∈ buildRelevantTasksChain allTasks T ∅ (d + 1)) ∧
      (∀ dep ∈ t0.dependencies, dep ∈ buildRelevantTasksChain allTasks T ∅ (d + 1)) ∧
      (∀ t ∈ allTasks, Dep.plain T ∈ t.dependencies →
        Dep.plain t.id ∈ buildRelevantTasksChain allTasks T ∅ (d + 1))) := by
  have hvis : T ∉ (∅ : Finset Int) := Finset.not_mem_empty T
  have hmono1 : ∀ (acc : Finset Dep) (i : Int), acc ⊆
      (if i ∈ insert T (∅ : Finset Int) then acc
       else insert (Dep.plain i) acc ∪ buildRelevantTasksChain allTasks i (insert T ∅) d) := by
    intro acc i
    split
    · exact subset_rfl
    · exact (Finset.subset_insert _ _).trans Finset.subset_union_left
  have hmono2 : ∀ (acc : Finset Dep) (dep : Dep), acc ⊆
      (if depVisited (insert T (∅ : Finset Int)) dep then acc else insert dep acc) := by
    intro acc dep
    split
    · exact subset_rfl
    · exact Finset.subset_insert _ _
  have hmono3 : ∀ (acc : Finset Dep) (t : Task), acc ⊆
      (if Dep.plain T ∈ t.dependencies ∧ t.id ∉ insert T (∅ : Finset Int) then
        insert (Dep.plain t.id) acc else acc) := by
    intro acc t
    split
    · exact Finset.subset_insert _ _
    · exact subset_rfl
  refine ⟨rfl, ?_, ?_⟩
  · simp only [buildRelevantTasksChain, if_neg hvis]
    cases hfind : allTasks.find? (fun t => t.id == T) with
    | none => simp
    | some t0 =>
      have h1 : ({Dep.plain T} : Finset Dep) ⊆ _ := foldl_subset_mono hmono1 t0.relevantTasks _
      have h2 := h1.trans (foldl_subset_mono hmono2 t0.dependencies _)
      have h3 := h2.trans (foldl_subset_mono hmono3 allTasks _)
      exact h3 (Finset.mem_singleton_self _)
  · intro t0 hfind
    refine ⟨?_, ?_, ?_⟩
    · intro i hi
      simp only [buildRelevantTasksChain, if_neg hvis, hfind]
      have hstep : ∀ acc : Finset Dep, ({Dep.plain T} : Finset Dep) ⊆ acc →
          ({Dep.plain i} : Finset Dep) ⊆
            (if i ∈ insert T (∅ : Finset Int) then acc
             else insert (Dep.plain i) acc ∪ buildRelevantTasksChain allTasks i (insert T ∅) d) := by
        intro acc hacc
        split
        · rename_i hmem
          have hiT : i = T := by simpa using hmem
          subst hiT
          exact hacc
        · exact Finset.singleton_subset_iff.mpr
            (Finset.mem_union_left _ (Finset.mem_insert_self _ _))
      have h1 : ({Dep.plain i} : Finset Dep) ⊆ _ :=
        foldl_single_elem hmono1 hstep t0.relevantTasks _ subset_rfl hi
      have h2 := h1.trans (foldl_subset_mono hmono2 t0.dependencies _)
      have h3 := h2.trans (foldl_subset_mono hmono3 allTasks _)
      exact h3 (Finset.mem_singleton_self _)
    · intro dep hdep
      simp only [buildRelevantTasksChain, if_neg hvis, hfind]
      have hstep : ∀ acc : Finset Dep, ({Dep.plain T} : Finset Dep) ⊆ acc →
          ({dep} : Finset Dep) ⊆
            (if depVisited (insert T (∅ : Finset Int)) dep then acc else insert dep acc) := by
        intro acc hacc
        split
        · rename_i hmem
          cases dep with
          | plain i =>
            have hiT : i = T := by simpa [depVisited] using hmem
            subst hiT
            exact hacc
          | sub p s2 => simp [depVisited] at hmem
        · exact Finset.singleton_subset_iff.mpr (Finset.mem_insert_self _ _)
      have hbase1 : ({Dep.plain T} : Finset Dep) ⊆ _ := foldl_subset_mono hmono1 t0.relevantTasks _
      have h2 : ({dep} : Finset Dep) ⊆ _ :=
        foldl_single_elem hmono2 hstep t0.dependencies _ hbase1 hdep
      have h3 := h2.trans (foldl_subset_mono hmono3 allTasks _)
      exact h3 (Finset.mem_singleton_self _)
    · intro t ht hdep
      simp only [buildRelevantTasksChain, if_neg hvis, hfind]
      have hstep : ∀ acc : Finset Dep, ({Dep.plain T} : Finset Dep) ⊆ acc →
          ({Dep.plain t.id} : Finset Dep) ⊆
            (if Dep.plain T ∈ t.dependencies ∧ t.id ∉ insert T (∅ : Finset Int) then
              insert (Dep.plain t.id) acc else acc) := by
        intro acc hacc
        split
        · exact Finset.singleton_subset_iff.mpr (Finset.mem_insert_self _ _)
        · rename_i hcond
          have hidT : t.id = T := by
            rcases not_and_or.mp hcond with h | h
            · exact absurd hdep h
            · simpa using not_not.mp h
          rw [hidT]
          exact hacc
      have hbase1 : ({Dep.plain T} : Finset Dep) ⊆ _ := foldl_subset_mono hmono1 t0.relevantTasks _
      have hbase2 := hbase1.trans (foldl_subset_mono hmono2 t0.dependencies _)
      have h3 : ({Dep.plain t.id} : Finset Dep) ⊆ _ :=
        foldl_single_elem hmono3 hstep allTasks _ hbase2 ht
      exact h3 (Finset.mem_singleton_self _)

/-- Claim C2, witness: at depth 1 the chain from seed 1 contains the seed,
its direct relevant task 2, its dependency 3, and its reverse dependency
4, on the concrete four-task collection. -/
theorem c2_witness :
    Dep.plain 1 ∈ buildRelevantTasksChain c2Tasks 1 ∅ 1 ∧
    Dep.plain 2 ∈ buildRelevantTasksChain c2Tasks 1 ∅ 1 ∧
    Dep.plain 3 ∈ buildRelevantTasksChain c2Tasks 1 ∅ 1 ∧
    Dep.plain 4 ∈ buildRelevantTasksChain c2Tasks 1 ∅ 1 := by
  have h := c2_relevance_chain_amended c2Tasks 1 0
  have hd := h.2.2
    { id := 1, status := "pending", relevantTasks := [2], dependencies := [.plain 3] } rfl
  refine ⟨h.2.1, hd.1 2 (by decide), hd.2.1 (Dep.plain 3) (by decide), ?_⟩
  exact hd.2.2 { id := 4, status := "pending", dependencies := [.plain 1] } (by decide) (by decide)

/-- Claim C3, counterexample: for 20 tasks serializing to 80000 characters
in the update domain the code returns the clamped batchSize 5 but computes
totalBatches as ceil(20 / 10) = 2 from the unclamped batch size, whereas
the claim requires ceil(count / batchSize) = ceil(20 / 5) = 4 with the
clamped value. -/
theorem c3_counterexample :
    (determineBatchStrategy 80000 20).batchSize = 5 ∧
    (determineBatchStrategy 80000 20).totalBatches = 2 ∧
    (2 : ℤ) ≠ ⌈(20 : ℚ) / ((5 : ℤ) : ℚ)⌉ := by
  have h : determineBatchStrategy 80000 20 = ⟨true, 5, 2, 30000⟩ := by
    simp only [determineBatchStrategy]
    norm_num
  rw [h]
  refine ⟨rfl, rfl, ?_⟩
  norm_num

/-- Claim C3, amended: for a non-empty task list the update-domain planner
computes estimatedTokens = serializedLength / 4 * 1.5 and, above the 15000
ceiling, sets useBatches with a returned batchSize clamped into [1, 5],
but divides totalBatches by the unclamped batch size
max(1, floor(10000 / (avg / 4))); below the ceiling a single batch holds
everything.  The complexity-domain planner computes
estimatedTokens = serializedLength / 4 * 2 and, above the 20000 ceiling,
clamps batchSize into [1, 10] and uses that clamped value for
totalBatches, with useBatches true exactly when totalBatches exceeds 1;
below the ceiling a single batch holds everything.  In particular 80000
serialized characters over 20 tasks in the update domain give
estimatedTokens 30000, useBatches true, and batchSize at most 5. -/
theorem c3_batch_planner_amended (serLen : ℚ) (n : ℕ) (hn : 1 ≤ n) :
    ((determineBatchStrategy serLen n).estimatedTokens = serLen / 4 * (3 / 2)) ∧
    (15000 < serLen / 4 * (3 / 2) →
      (determineBatchStrategy serLen n).useBatches = true ∧
      1 ≤ (determineBatchStrategy serLen n).batchSize ∧
      (determineBatchStrategy serLen n).batchSize ≤ 5 ∧
      (determineBatchStrategy serLen n).totalBatches =
        ⌈(n : ℚ) / ((max 1 ⌊(10000 : ℚ) / (serLen / (n : ℚ) / 4)⌋ : ℤ) : ℚ)⌉) ∧
    (serLen / 4 * (3 / 2) ≤ 15000 →
      (determineBatchStrategy serLen n).useBatches = false ∧
      (determineBatchStrategy serLen n).batchSize = (n : ℤ) ∧
      (determineBatchStrategy serLen n).totalBatches = 1) ∧
    ((calculateBatchConfig serLen n none).estimatedTokens = serLen / 4 * 2) ∧
    (20000 < serLen / 4 * 2 →
      (calculateBatchConfig serLen n none).batchSize =
        min (max 1 ⌊(15000 : ℚ) / (serLen / (n : ℚ) / 4)⌋) 10 ∧
      1 ≤ (calculateBatchConfig serLen n none).batchSize ∧
      (calculateBatchConfig serLen n none).batchSize ≤ 10 ∧
      (calculateBatchConfig serLen n none).totalBatches =
        ⌈(n : ℚ) / (((calculateBatchConfig serLen n none).batchSize : ℤ) : ℚ)⌉ ∧
      ((calculateBatchConfig serLen n none).useBatches = true ↔
        1 < (calculateBatchConfig serLen n none).totalBatches)) ∧
    (serLen / 4 * 2 ≤ 20000 →
      (calculateBatchConfig serLen n none).batchSize = (n : ℤ) ∧
      (calculateBatchConfig serLen n none).totalBatches = 1 ∧
      (calculateBatchConfig serLen n none).useBatches = false) ∧
    ((determineBatchStrategy 80000 20).estimatedTokens = 30000 ∧
      (determineBatchStrategy 80000 20).useBatches = true ∧
      (determineBatchStrategy 80000 20).batchSize ≤ 5) := by
  have hn2 : n ≠ 0 := by omega
  have hnq : ((n : ℚ)) ≠ 0 := Nat.cast_ne_zero.mpr hn2
  have hconc : determineBatchStrategy 80000 20 = ⟨true, 5, 2, 30000⟩ := by
    simp only [determineBatchStrategy]
    norm_num
  refine ⟨?_, ?_, ?_, ?_, ?_, ?_, ?_⟩
  · simp only [determineBatchStrategy, if_neg hn2]
    split <;> rfl
  · intro h
    simp only [determineBatchStrategy, if_neg hn2, if_pos h, true_and, and_true]
    exact ⟨le_min (le_max_left 1 _) (by norm_num), min_le_right _ 5⟩
  · intro h
    simp [determineBatchStrategy, if_neg hn2, if_neg (not_lt.mpr h)]
  · rfl
  · intro h
    simp only [calculateBatchConfig, if_pos h, true_and, and_true]
    refine ⟨le_min (le_max_left 1 _) (by norm_num), min_le_right _ 10, ?_⟩
    simp [decide_eq_true_eq]
  · intro h
    simp only [calculateBatchConfig, if_neg (not_lt.mpr h), true_and]
    push_cast
    rw [div_self hnq]
    norm_num
  · rw [hconc]
    exact ⟨rfl, rfl, by norm_num⟩

/-- Claim C3, witness: the amended planner facts instantiated at 80000
characters and 20 tasks. -/
theorem c3_witness :
    (determineBatchStrategy 80000 20).useBatches = true ∧
    (determineBatchStrategy 80000 20).batchSize ≤ 5 :=
  ⟨((c3_batch_planner_amended 80000 20 (by norm_num)).2.1 (by norm_num)).1,
   ((c3_batch_planner_amended 80000 20 (by norm_num)).2.1 (by norm_num)).2.2.1⟩

/-- Claim C4, counterexample: a successful set-task-status call changes the
status of task 1 but leaves its updatedAt stamp byte-identical to the one
stored before the call, contradicting the claim that every mutation
updates the changed task's updatedAt timestamp. -/
theorem c4_counterexample :
    (runSetTaskStatus c4Tasks ['1'] "done" true).1.isError = false ∧
    (runSetTaskStatus c4Tasks ['1'] "done" true).2.map (fun t => (t.status, t.updatedAt)) =
      [("done", "t0")] := by
  exact ⟨rfl, rfl⟩

/-- Claim C4, amended: every verified mutation persists the whole
collection and reports a failed write as an error with the persisted
collection unchanged (each call re-reads from disk, so no partial commit
is visible); clear-subtasks stamps updatedAt = now on every cleared task
and add-dependency stamps the target task (or the parent of a target
subtask), but set-task-status changes only statuses and never touches
updatedAt. -/
theorem c4_mutation_persistence_amended :
    (∀ (tasks : List Task) (raw : List Char) (st : String),
      (runSetTaskStatus tasks raw st false).2 = tasks ∧
      ((runSetTaskStatus tasks raw st false).1.updatedIds ≠ [] →
        (runSetTaskStatus tasks raw st false).1.isError = true)) ∧
    (∀ (tasks : List Task) (raw : List Char) (st : String) (wOk : Bool),
      ((runSetTaskStatus tasks raw st wOk).2).map frameOf = tasks.map frameOf) ∧
    (∀ (tasks : List Task) (raw : List Char) (st : String),
      isValidTaskStatus st = true →
      0 < (setTaskStatusLoop tasks ((splitOnChar ',' raw).map jsTrim) st).2.1.length →
      (runSetTaskStatus tasks raw st true).2 =
        (setTaskStatusLoop tasks ((splitOnChar ',' raw).map jsTrim) st).1) ∧
    (∀ (tasks : List Task) (ids : Option (List Char)) (all : Bool) (now : String),
      (runClearSubtasks tasks ids all now false).2 = tasks ∧
      ((runClearSubtasks tasks ids all now false).1.clearedIds ≠ [] →
        (runClearSubtasks tasks ids all now false).1.isError = true)) ∧
    (∀ (tasks : List Task) (ids : Option (List Char)) (all : Bool) (now : String),
      ∀ i ∈ (runClearSubtasks tasks ids all now true).1.clearedIds,
        ∃ t ∈ (runClearSubtasks tasks ids all now true).2,
          t.id = i ∧ t.subtasks = [] ∧ t.updatedAt = now) ∧
    (∀ (tasks : List Task) (a b : List Char) (now : String),
      (runAddDependency tasks a b now false).2 = tasks ∧
      (runAddDependency tasks a b now false).1 ≠ .ok) ∧
    ((runAddDependency mixTasks ['1'] ['2'] "now" true).2.map (fun t => t.updatedAt) =
      ["now", "t0"]) ∧
    (∀ (tasks : List Task) (a b : List Char) (now : String) (nt : List Task),
      runAddDependency tasks a b now true = (.ok, nt) →
      ∃ l₁ t t2 l₂, tasks = l₁ ++ t :: l₂ ∧ nt = l₁ ++ t2 :: l₂ ∧
        t2.id = t.id ∧ t2.updatedAt = now ∧
        (a.contains '.' = false →
          t2 = { t with dependencies := t.dependencies ++ [mkDependencyId b], updatedAt := now }) ∧
        (a.contains '.' = true →
          t2.dependencies = t.dependencies ∧
          ∃ s₁ s s2 s₂, t.subtasks = s₁ ++ s :: s₂ ∧ t2.subtasks = s₁ ++ s2 :: s₂ ∧
            s2 = { s with dependencies := s.dependencies ++ [mkDependencyId b] })) :=
  ⟨runSetTaskStatus_writeFail, runSetTaskStatus_frames, runSetTaskStatus_persistSuccess,
   runClearSubtasks_writeFail, runClearSubtasks_stamps, runAddDependency_writeFail, rfl,
   fun tasks a b now nt h =>
     addDependencyMutate_stamps tasks a (mkDependencyId b) now nt
       (runAddDependency_success tasks a b now nt h)⟩

/-- Claim C4, witness: the failed-write behaviour instantiated on a
concrete collection where one id resolves, and the add-dependency stamp
instantiated on a subtask target, where the parent task is the stamped
element. -/
theorem c4_witness :
    (runSetTaskStatus mixTasks ['1'] "done" false).2 = mixTasks ∧
    (runSetTaskStatus mixTasks ['1'] "done" false).1.isError = true ∧
    (∃ l₁ t t2 l₂, mixTasks = l₁ ++ t :: l₂ ∧
      (runAddDependency mixTasks ['2', '.', '1'] ['1'] "now" true).2 = l₁ ++ t2 :: l₂ ∧
      t2.id = t.id ∧ t2.updatedAt = "now" ∧ t2.dependencies = t.dependencies ∧
      ∃ s₁ s s2 s₂, t.subtasks = s₁ ++ s :: s₂ ∧ t2.subtasks = s₁ ++ s2 :: s₂ ∧
        s2 = { s with dependencies := s.dependencies ++ [mkDependencyId ['1']] }) := by
  refine ⟨(c4_mutation_persistence_amended.1 mixTasks ['1'] "done").1,
    (c4_mutation_persistence_amended.1 mixTasks ['1'] "done").2 (by decide), ?_⟩
  obtain ⟨l₁, t, t2, l₂, h1, h2, h3, h4, h5, h6⟩ :=
    c4_mutation_persistence_amended.2.2.2.2.2.2.2 mixTasks ['2', '.', '1'] ['1'] "now"
      (runAddDependency mixTasks ['2', '.', '1'] ['1'] "now" true).2 (by rfl)
  obtain ⟨hdeps, s₁, s, s2, s₂, hs1, hs2, hs3⟩ := h6 (by rfl)
  exact ⟨l₁, t, t2, l₂, h1, h2, h3, h4, hdeps, s₁, s, s2, s₂, hs1, hs2, hs3⟩

/-- Claim C5: the dependency-satisfaction check of the status report is
vacuously true on an empty dependency list for every collection, and any
dependency identifier that fails to resolve to an existing task or subtask
forces the whole check to false — unresolvable dependencies are treated as
unsatisfied. -/
theorem c5_dependency_fails_closed :
    (∀ allTasks : List Task, areAllDependenciesCompleted [] allTasks = true) ∧
    (∀ (allTasks : List Task) (deps : List Dep) (dep : Dep), dep ∈ deps →
      depResolvedStatus allTasks dep = none →
      areAllDependenciesCompleted deps allTasks = false) := by
  constructor
  · intro allTasks; rfl
  · intro allTasks deps dep hmem hres
    rw [areAllDependenciesCompleted, List.all_eq_false]
    refine ⟨dep, hmem, ?_⟩
    cases dep with
    | plain i =>
      simp only [depResolvedStatus, Option.map_eq_none'] at hres
      simp [hres]
    | sub p s2 =>
      simp only [depResolvedStatus] at hres
      cases hfind : allTasks.find? (fun t => t.id == p) with
      | none => simp [hfind]
      | some parent =>
        rw [hfind, Option.map_eq_none'] at hres
        simp [hfind, hres]

/-- Claim C5, witness: the empty list is satisfied on a concrete
collection, and a missing plain id 42 fails closed on the empty
collection. -/
theorem c5_witness :
    areAllDependenciesCompleted [] c1Tasks = true ∧
    areAllDependenciesCompleted [Dep.plain 42] [] = false :=
  ⟨c5_dependency_fails_closed.1 c1Tasks,
   c5_dependency_fails_closed.2 [] [Dep.plain 42] (Dep.plain 42) (by decide) rfl⟩

/-- Claim C6, counterexample: the selector does NOT default every
unrecognized priority to medium.  A priority naming an `Object.prototype`
member ("toString") makes `priorityOrder[a.priority]` look up a truthy
inherited function, the comparator computes `NaN`, and the sort treats the
pair as tied, so the earlier task wins: `findNextTask` returns task 1 even
though task 2 is eligible, ties on the in-progress flag and on dependent
counts, and strictly beats task 1 on the claim's priority scale (high 3
against default-medium 2), which the claim ranks above all later
tiebreakers. -/
theorem c6_counterexample :
    findNextTask c6xTasks = some c6xTask1 ∧
    c6xTask2 ∈ eligibleTasks c6xTasks ∧
    inProgressRank c6xTask1 = inProgressRank c6xTask2 ∧
    dependentCount c6xTasks c6xTask1.id = dependentCount c6xTasks c6xTask2.id ∧
    claimPriorityValue c6xTask1.priority < claimPriorityValue c6xTask2.priority := by
  refine ⟨rfl, by decide, rfl, rfl, by decide⟩

/-- Claim C6, amended: on tasks whose priority value is numeric (that is,
high, medium or low, or defaulted to medium because the priority is absent
or unrecognized without naming an `Object.prototype` member), the
comparator of the next-task selector realises the lexicographic key
(in-progress first, then priority high 3 above medium 2 above low 1, then
higher dependent count, then lower id); when the two priority values
differ and either is the truthy non-number inherited from
`Object.prototype`, the comparator evaluates to a tie (`NaN` in the
source) and the dependent-count and id tiebreakers are skipped for that
pair; when every eligible task has a numeric priority value the selected
task is an eligible task that no other eligible task strictly precedes
under the key; and on the concrete scenario with A (low, no deps), B
(high, no deps) and C (high, depends on B) the selector returns B. -/
theorem c6_next_task_ranking_amended :
    (∀ (tasks : List Task) (a b : Task),
      numericPriority a = true → numericPriority b = true →
      (taskCmp tasks a b < 0 ↔ rankKey tasks a < rankKey tasks b)) ∧
    (∀ (tasks : List Task) (a b : Task),
      inProgressRank a = inProgressRank b →
      priorityValue a.priority ≠ priorityValue b.priority →
      (numericPriority a = false ∨ numericPriority b = false) →
      taskCmp tasks a b = 0) ∧
    (∀ (tasks : List Task) (r : Task),
      (∀ t ∈ eligibleTasks tasks, numericPriority t = true) →
      findNextTask tasks = some r →
      r ∈ eligibleTasks tasks ∧ ∀ t ∈ eligibleTasks tasks, rankKey tasks r ≤ rankKey tasks t) ∧
    findNextTask c6Tasks = some c6TaskB := by
  refine ⟨fun tasks a b hna hnb => taskCmp_lt_iff tasks a b hna hnb,
    fun tasks a b hr hne hx => taskCmp_exotic_tie tasks a b hr hne hx, ?_, ?_⟩
  · intro tasks r hnum h
    unfold findNextTask selectFirstMin at h
    cases he : eligibleTasks tasks with
    | nil => rw [he] at h; cases h
    | cons t rest =>
      rw [he] at h
      have hall : ∀ x, (x = t ∨ x ∈ rest) → numericPriority x = true := by
        intro x hx
        refine hnum x ?_
        rw [he]
        rcases hx with h1 | h1
        · rw [h1]; exact List.mem_cons_self t rest
        · exact List.mem_cons_of_mem t h1
      obtain ⟨hmem, hle⟩ := foldl_min_aux tasks rest t hall
      have hr : rest.foldl (fun best c => if taskCmp tasks c best < 0 then c else best) t = r :=
        Option.some.inj h
      constructor
      · rw [← hr]
        rcases hmem with h1 | h1
        · rw [h1]
          exact List.mem_cons_self t rest
        · exact List.mem_cons_of_mem t h1
      · intro x hx
        rw [← hr]
        rcases List.mem_cons.mp hx with h2 | h2
        · exact hle x (Or.inl h2)
        · exact hle x (Or.inr h2)
  · rfl

/-- Claim C6, witness: every eligible task of the concrete scenario has a
numeric priority value, the maximality statement instantiated there makes
B the selected task, and the exotic-tie clause instantiated on the
counterexample pair computes a comparator tie. -/
theorem c6_witness :
    c6TaskB ∈ eligibleTasks c6Tasks ∧
    (∀ t ∈ eligibleTasks c6Tasks, rankKey c6Tasks c6TaskB ≤ rankKey c6Tasks t) ∧
    taskCmp c6xTasks c6xTask1 c6xTask2 = 0 := by
  refine ⟨(c6_next_task_ranking_amended.2.2.1 c6Tasks c6TaskB (by decide) rfl).1,
    (c6_next_task_ranking_amended.2.2.1 c6Tasks c6TaskB (by decide) rfl).2,
    c6_next_task_ranking_amended.2.1 c6xTasks c6xTask1 c6xTask2 rfl (by decide)
      (Or.inl (by decide))⟩

/-- Claim C7: with a valid status and a successful write, the set-status
tool reports success, its updated list is exactly the trimmed
comma-separated ids that resolve in the collection, its error list is
exactly the ids that do not resolve, and every resolving id reads back the
new status from the persisted collection — partial success per id, never
all-or-nothing. -/
theorem c7_set_status_per_id (tasks : List Task) (taskIdsRaw : List Char) (newStatus : String)
    (hv : isValidTaskStatus newStatus = true) :
    (runSetTaskStatus tasks taskIdsRaw newStatus true).1.isError = false ∧
    (runSetTaskStatus tasks taskIdsRaw newStatus true).1.updatedIds =
      ((splitOnChar ',' taskIdsRaw).map jsTrim).filter
        (fun id => (findTaskById tasks id).isSome) ∧
    (runSetTaskStatus tasks taskIdsRaw newStatus true).1.errorIds =
      ((splitOnChar ',' taskIdsRaw).map jsTrim).filter
        (fun id => !(findTaskById tasks id).isSome) ∧
    ∀ id ∈ (splitOnChar ',' taskIdsRaw).map jsTrim,
      (findTaskById tasks id).isSome = true →
        resolvedStatusAt (runSetTaskStatus tasks taskIdsRaw newStatus true).2 id =
          some newStatus := by
  obtain ⟨hf, hu, he, hs⟩ :=
    setTaskStatusLoop_spec newStatus ((splitOnChar ',' taskIdsRaw).map jsTrim) tasks
  simp only [runSetTaskStatus, hv, Bool.not_true, Bool.false_eq_true, if_false]
  by_cases hlen :
      0 < (setTaskStatusLoop tasks ((splitOnChar ',' taskIdsRaw).map jsTrim) newStatus).2.1.length
  · simp only [hlen, if_true]
    exact ⟨trivial, hu, he, hs⟩
  · simp only [hlen, if_false]
    refine ⟨trivial, hu, he, ?_⟩
    intro id hm hsm
    exfalso
    apply hlen
    have hmem : id ∈
        (setTaskStatusLoop tasks ((splitOnChar ',' taskIdsRaw).map jsTrim) newStatus).2.1 := by
      rw [hu]
      exact List.mem_filter.mpr ⟨hm, hsm⟩
    exact List.length_pos.mpr (List.ne_nil_of_mem hmem)

/-- Claim C7, witness: the list "1, 99,2.1" against the concrete two-task
collection: the subtask id 2.1 resolves and reads back the new status. -/
theorem c7_witness :
    isValidTaskStatus "done" = true ∧
    resolvedStatusAt
      (runSetTaskStatus mixTasks ['1', ',', ' ', '9', '9', ',', '2', '.', '1'] "done" true).2
      ['2', '.', '1'] = some "done" :=
  ⟨rfl, (c7_set_status_per_id mixTasks ['1', ',', ' ', '9', '9', ',', '2', '.', '1'] "done"
      rfl).2.2.2 ['2', '.', '1'] (by decide) rfl⟩

/-- Claim C8: asking a resolvable identifier to depend on itself is
rejected with the self-dependency error before any mutation, and the
persisted collection — including the task's dependency list — is exactly
the one read, for any write outcome. -/
theorem c8_self_dependency_rejected (tasks : List Task) (s : List Char) (now : String)
    (writeOk : Bool) (h : findTaskById tasks s ≠ none) :
    runAddDependency tasks s s now writeOk = (.errSelf, tasks) := by
  obtain ⟨r, hr⟩ := Option.ne_none_iff_exists'.mp h
  simp [runAddDependency, hr]

/-- Claim C8, witness: task 1 of the concrete collection cannot be made to
depend on itself. -/
theorem c8_witness :
    runAddDependency mixTasks ['1'] ['1'] "now" true = (.errSelf, mixTasks) :=
  c8_self_dependency_rejected mixTasks ['1'] "now" true (by decide)

/-- Claim C9: similarity of a string with itself is 1, two empty strings
are fully similar, and similarity is symmetric, for the scorer defined as
1 - levenshteinDistance / max-length with unit-cost edits. -/
theorem c9_similarity_properties :
    (∀ s : List Char, calculateSimilarity s s = 1) ∧
    calculateSimilarity [] [] = 1 ∧
    (∀ a b : List Char, calculateSimilarity a b = calculateSimilarity b a) := by
  refine ⟨?_, ?_, ?_⟩
  · intro s
    simp [calculateSimilarity, levenshteinDistance_self]
  · simp [calculateSimilarity]
  · intro a b
    simp only [calculateSimilarity, Nat.max_comm b.length a.length, levenshteinDistance_comm a b]

/-- Claim C9, witness: the three properties evaluated on concrete
strings. -/
theorem c9_witness :
    calculateSimilarity ['a', 'b'] ['a', 'b'] = 1 ∧
    calculateSimilarity ['a'] ['b'] = calculateSimilarity ['b'] ['a'] :=
  ⟨c9_similarity_properties.1 ['a', 'b'], c9_similarity_properties.2.2 ['a'] ['b']⟩

/-- Claim C10: identifier resolution is a total function by construction
and never throws; a dotted identifier is resolved from its first two
dot-separated components only, so any trailing components are ignored; a
missing parent or missing subtask yields none, a present subtask yields
the subtask with its parent; and an undotted identifier is resolved as a
parsed integer task id through the task list, yielding none when no such
task exists. -/
theorem c10_find_task_resolution (tasks : List Task) (P S rest : List Char)
    (hP : P.contains '.' = false) (hS : S.contains '.' = false) :
    (findTaskById tasks (P ++ '.' :: (S ++ '.' :: rest)) = findTaskById tasks (P ++ '.' :: S)) ∧
    (∀ p, parseIntJs P = some p → tasks.find? (fun t => t.id == p) = none →
      findTaskById tasks (P ++ '.' :: S) = none) ∧
    (∀ p t0 s0, parseIntJs P = some p → tasks.find? (fun t => t.id == p) = some t0 →
      parseIntJs S = some s0 →
      findTaskById tasks (P ++ '.' :: S) =
        (t0.subtasks.find? (fun st => st.id == s0)).map (FindResult.subR t0)) ∧
    (∀ n, parseIntJs P = some n →
      findTaskById tasks P = (tasks.find? (fun t => t.id == n)).map FindResult.taskR) := by
  have hPmem : '.' ∉ P := not_mem_of_contains_false hP
  have hSmem : '.' ∉ S := not_mem_of_contains_false hS
  have hsplit2 : splitOnChar '.' (P ++ '.' :: S) = [P, S] := by
    rw [splitOnChar_append '.' P S hPmem, splitOnChar_no_sep '.' S hSmem]
  have hsplit3 : splitOnChar '.' (P ++ '.' :: (S ++ '.' :: rest)) =
      P :: S :: splitOnChar '.' rest := by
    rw [splitOnChar_append '.' P (S ++ '.' :: rest) hPmem,
      splitOnChar_append '.' S rest hSmem]
  refine ⟨?_, ?_, ?_, ?_⟩
  · simp only [findTaskById, contains_of_append_cons, if_true, hsplit2, hsplit3]
    rfl
  · intro p hp hfind
    simp only [findTaskById, contains_of_append_cons, if_true, hsplit2]
    simp [hp, hfind]
  · intro p t0 s0 hp hfind hs
    simp only [findTaskById, contains_of_append_cons, if_true, hsplit2]
    simp only [List.getD, hp, hfind, hs]
    cases h : t0.subtasks.find? (fun st => st.id == s0) <;> simp [hp, hfind, hs, h]
  · intro n hn
    simp only [findTaskById, hP, Bool.false_eq_true, if_false, hn]

/-- Claim C10, witness: the identifier 5.2.3 resolves exactly as 5.2, and a
missing plain task id yields the lookup of the empty find. -/
theorem c10_witness :
    findTaskById c1Tasks (['5'] ++ '.' :: (['2'] ++ '.' :: ['3'])) =
      findTaskById c1Tasks (['5'] ++ '.' :: ['2']) ∧
    findTaskById c1Tasks ['7'] =
      (c1Tasks.find? (fun t => t.id == 7)).map FindResult.taskR :=
  ⟨(c10_find_task_resolution c1Tasks ['5'] ['2'] ['3'] rfl rfl).1,
   (c10_find_task_resolution c1Tasks ['7'] [] [] rfl rfl).2.2.2 7 rfl⟩

end TaskMaster
